import Mathlib

/-!
Verification of the qr upload service (src/server.js) against its
natural-language specification.  Each section shallowly embeds one part of
the program, translated from the source; the theorems at the end of the
file settle the specification claims.
-/

namespace QRServer

/-!
### JavaScript error values and `isExpiredAuthError` (server.js lines 103-108)

A b2-client failure is inspected through the fields `err.response.status`,
`err.response.data.code`, `err.code` and `err.status`.  `none` models an
absent (`undefined`) field; a present empty string or zero is a present
falsy value, which the source's truthiness tests treat like an absent one.
-/

structure JsError where
  respStatus : Option Nat
  respCode : Option String
  ownCode : Option String
  ownStatus : Option Nat
  deriving DecidableEq

/-- `const code = resp && resp.data && resp.data.code ? resp.data.code : err && err.code`:
the response body code wins when truthy (present and nonempty), else `err.code`. -/
def errCode (e : JsError) : Option String :=
  match e.respCode with
  | some c => if c = "" then e.ownCode else some c
  | none => e.ownCode

/-- `const status = resp && resp.status ? resp.status : err && err.status`. -/
def errStatus (e : JsError) : Option Nat :=
  match e.respStatus with
  | some s => if s = 0 then e.ownStatus else some s
  | none => e.ownStatus

/-- server.js lines 103-108. -/
def isExpiredAuthError (e : JsError) : Bool :=
  errCode e == some "expired_auth_token" || errCode e == some "bad_auth_token" ||
    errStatus e == some 401

/-- Outcome of one b2 client call. -/
inductive JsResult (α : Type) where
  | ok (v : α)
  | err (e : JsError)
  deriving DecidableEq

/-!
### `uploadFileToB2` (server.js lines 110-134)

One `attempt(forceAuth)` awaits `ensureB2Authorized(forceAuth)`, then
`b2.getUploadUrl`, then `b2.uploadFile`.  The environment records the
outcome the b2 client would give to each of those calls; an upload run is
given one environment per attempt (the second is consulted only if the
retry happens).  A `B2Calls` value records which calls a run performed.
-/

structure AttemptEnv where
  authR : JsResult Unit
  getUrlR : JsResult Unit
  uploadR : JsResult Nat
  deriving DecidableEq

structure B2Calls where
  authForces : List Bool
  getUrlCalls : Nat
  uploadCalls : Nat
  deriving DecidableEq

def B2Calls.add (a b : B2Calls) : B2Calls :=
  { authForces := a.authForces ++ b.authForces,
    getUrlCalls := a.getUrlCalls + b.getUrlCalls,
    uploadCalls := a.uploadCalls + b.uploadCalls }

/-- One `attempt(forceAuth)` (server.js lines 111-123): authorize, fetch an
upload URL, upload; the first failing call aborts the attempt with its error. -/
def attempt (a : AttemptEnv) (forceAuth : Bool) : JsResult Nat × B2Calls :=
  match a.authR with
  | .err e => (.err e, { authForces := [forceAuth], getUrlCalls := 0, uploadCalls := 0 })
  | .ok _ =>
    match a.getUrlR with
    | .err e => (.err e, { authForces := [forceAuth], getUrlCalls := 1, uploadCalls := 0 })
    | .ok _ =>
      match a.uploadR with
      | .err e => (.err e, { authForces := [forceAuth], getUrlCalls := 1, uploadCalls := 1 })
      | .ok v => (.ok v, { authForces := [forceAuth], getUrlCalls := 1, uploadCalls := 1 })

/-- The step of an attempt at which it would fail, with the error. -/
inductive FailStage where
  | authStage
  | getUrlStage
  | uploadStage
  deriving DecidableEq

def attemptFailStage (a : AttemptEnv) : Option (FailStage × JsError) :=
  match a.authR with
  | .err e => some (.authStage, e)
  | .ok _ =>
    match a.getUrlR with
    | .err e => some (.getUrlStage, e)
    | .ok _ =>
      match a.uploadR with
      | .err e => some (.uploadStage, e)
      | .ok _ => none

/-- `uploadFileToB2` (server.js lines 110-134): run `attempt(false)`; if it
throws an error satisfying `isExpiredAuthError`, run `attempt(true)` once and
return its result; any other error, and the result of the retry, propagate. -/
def uploadFileToB2 (env1 env2 : AttemptEnv) : JsResult Nat × B2Calls :=
  match attempt env1 false with
  | (.ok v, c) => (.ok v, c)
  | (.err e, c) =>
    if isExpiredAuthError e then
      let r2 := attempt env2 true
      (r2.1, c.add r2.2)
    else (.err e, c)

/-!
### `ensureB2Ready` (server.js lines 136-195)

The init body runs at most once per process: `b2InitPromise` is installed on
the first call and never cleared, so every later call returns the cached
config.  The environment carries the configuration strings (an empty string
is an unset environment variable, matching the `||` fallbacks of the source)
and the outcomes the b2 client would give to the authorize handshake, the
`listBuckets` call and the two `getBucket` variants.
-/

structure AuthData where
  accountId : String
  downloadUrl : String
  deriving DecidableEq

structure Bucket where
  bucketId : String
  bucketName : String
  deriving DecidableEq

structure B2Config where
  enabled : Bool
  bucketId : String
  bucketName : String
  publicBaseUrl : String
  deriving DecidableEq

/-- The module-level initial value of `b2Config` (server.js line 69); the
catch branch of the init body leaves every field of it untouched except
`enabled`, which it (re)sets to `false`. -/
def b2ConfigInit : B2Config :=
  { enabled := false, bucketId := "", bucketName := "", publicBaseUrl := "" }

structure ReadyEnv where
  b2KeyId : String
  b2AppKey : String
  b2BucketIdEnv : String
  b2BucketNameEnv : String
  b2PublicBaseOverride : String
  authorizeR : JsResult AuthData
  listBucketsR : JsResult (List Bucket)
  getBucketByIdR : JsResult Bucket
  getBucketByNameR : JsResult Bucket

/-- The credentials/bucket guard of server.js line 140:
`!b2KeyId || !b2AppKey || (!b2BucketIdEnv && !b2BucketNameEnv)`. -/
def b2ConfigMissing (env : ReadyEnv) : Bool :=
  env.b2KeyId == "" || env.b2AppKey == "" ||
    (env.b2BucketIdEnv == "" && env.b2BucketNameEnv == "")

/-- Bucket discovery (server.js lines 147-179): try `listBuckets` filtered by
the configured id or name, swallowing its error; fall back to `getBucket`,
swallowing its error; fail when neither produced a bucket. -/
def discoverBucket (env : ReadyEnv) : JsResult Bucket :=
  let fromList : Option Bucket :=
    match env.listBucketsR with
    | .err _ => none
    | .ok buckets =>
      if env.b2BucketIdEnv != "" then
        buckets.find? (fun b => b.bucketId == env.b2BucketIdEnv)
      else if env.b2BucketNameEnv != "" then
        buckets.find? (fun b => b.bucketName == env.b2BucketNameEnv)
      else none
  let found : Option Bucket :=
    match fromList with
    | some b => some b
    | none =>
      if env.b2BucketIdEnv != "" then
        match env.getBucketByIdR with
        | .ok b => some b
        | .err _ => none
      else if env.b2BucketNameEnv != "" then
        match env.getBucketByNameR with
        | .ok b => some b
        | .err _ => none
      else none
  match found with
  | some b => .ok b
  | none =>
    .err { respStatus := none, respCode := none,
           ownCode := some "bucket_not_found", ownStatus := none }

/-- The body of the init promise before its catch (server.js lines 138-183).
`.err` is a thrown exception (from the authorize handshake or from failed
discovery); the missing-configuration guard is not an exception but an early
`return` of the disabled config. -/
def b2InitBodyTry (env : ReadyEnv) : JsResult B2Config :=
  if b2ConfigMissing env then .ok b2ConfigInit
  else
    match env.authorizeR with
    | .err e => .err e
    | .ok auth =>
      let downloadUrl := auth.downloadUrl
      if env.b2BucketIdEnv != "" && env.b2BucketNameEnv != "" then
        .ok { enabled := true, bucketId := env.b2BucketIdEnv,
              bucketName := env.b2BucketNameEnv,
              publicBaseUrl :=
                if env.b2PublicBaseOverride != "" then env.b2PublicBaseOverride
                else downloadUrl }
      else
        match discoverBucket env with
        | .err e => .err e
        | .ok b =>
          .ok { enabled := true, bucketId := b.bucketId,
                bucketName := b.bucketName,
                publicBaseUrl :=
                  if env.b2PublicBaseOverride != "" then env.b2PublicBaseOverride
                  else downloadUrl }

/-- The init body with its catch (server.js lines 184-193): any thrown error
is logged and converted into the disabled config. -/
def b2InitBody (env : ReadyEnv) : B2Config :=
  match b2InitBodyTry env with
  | .ok cfg => cfg
  | .err _ => b2ConfigInit

/-- How many authorize handshakes the init body performs: none when the
configuration guard fires, otherwise exactly the one `ensureB2Authorized(true)`
of line 144. -/
def b2InitAuthCalls (env : ReadyEnv) : Nat :=
  if b2ConfigMissing env then 0 else 1

/-- `ensureB2Ready` as a state transformer: the state is the cached
`b2InitPromise` result (`none` before the first call, and never cleared).
Returns the config handed to the caller, the new state, and the number of
authorize handshakes this call performed. -/
def ensureB2Ready (env : ReadyEnv) (st : Option B2Config) :
    B2Config × Option B2Config × Nat :=
  match st with
  | some cfg => (cfg, some cfg, 0)
  | none =>
    let cfg := b2InitBody env
    (cfg, some cfg, b2InitAuthCalls env)

/-- The configs and total authorize-handshake count observed by `n`
sequential `ensureB2Ready` calls starting from the fresh process state. -/
def ensureB2ReadyRun (env : ReadyEnv) : Nat → List B2Config × Option B2Config × Nat
  | 0 => ([], none, 0)
  | n + 1 =>
    let prev := ensureB2ReadyRun env n
    let step := ensureB2Ready env prev.2.1
    (prev.1 ++ [step.1], step.2.1, prev.2.2 + step.2.2)

/-!
### The fingerprint registry: records and `loadReports` (server.js lines 198-207)

A stored record; fields absent from the serialized JSON are `none`.  The
store file content is modelled as `Option JsVal`: `none` when reading or
`JSON.parse` throws (missing file, unreadable file, unparseable text), and
`some v` for the parsed JSON value, classified the way the source's
`parsed && typeof parsed === "object"` test observes it.  A JSON array is
`typeof "object"` and truthy, so the source returns it as the registry; its
keys are its numeric indices, so it holds no `"123abc"` property (arrays
are represented by their length, which is all the property test can see).
-/

structure Record where
  fileName : Option String
  status : Option String
  fileUrl : Option String
  mimeType : Option String
  createdAt : Option String
  deriving DecidableEq

inductive JsVal where
  | jsNull
  | jsBool (b : Bool)
  | jsNum (n : Int)
  | jsStr (s : String)
  | jsArr (len : Nat)
  | jsObj (m : List (String × Record))
  deriving DecidableEq

/-- `parsed && typeof parsed === "object"`: `typeof null` is `"object"` but
`null` is falsy; arrays and objects are truthy objects. -/
def isTruthyObject : JsVal → Bool
  | .jsArr _ => true
  | .jsObj _ => true
  | _ => false

/-- The hard-coded seed record written under key `"123abc"` (lines 204-206);
its `createdAt` is `new Date().toISOString()`, supplied by the environment. -/
def seedReports (nowIso : String) : List (String × Record) :=
  [("123abc",
    { fileName := some "report1.pdf", status := some "????â?â?",
      fileUrl := none, mimeType := none, createdAt := some nowIso })]

/-- `loadReports` (server.js lines 198-207): return the parsed store content
when it is a truthy object, and the seed map otherwise (including when the
read or the parse threw). -/
def loadReports (nowIso : String) (raw : Option JsVal) : JsVal :=
  match raw with
  | some v => if isTruthyObject v then v else .jsObj (seedReports nowIso)
  | none => .jsObj (seedReports nowIso)

/-- JavaScript property lookup `value[key]` for a non-numeric string key:
only plain objects can own it; array properties are numeric indices (plus
`length`), never `"123abc"`. -/
def jsProp (v : JsVal) (key : String) : Option Record :=
  match v with
  | .jsObj m => m.lookup key
  | _ => none

/-!
### `GET /api/reports` (server.js lines 327-342)

Entries of the registry are mapped to response items (`|| ''` and `|| null`
fallbacks as in the source), then sorted by the comparator
`(a, b) => bTime - aTime` where a falsy `createdAt` yields time `0` and an
unparseable one yields `NaN`.  Date parsing is environment-supplied
(`parse s = none` models `new Date(s).getTime()` being `NaN`).  Per the
ECMAScript `SortCompare` specification a comparator result of `NaN` is
treated as `+0`, and the sort is required to be stable; the sort is
modelled as a stable insertion sort on the comparator's sign.
-/

structure ReportItem where
  hash : String
  fileName : String
  status : String
  fileUrl : String
  mimeType : String
  createdAt : Option String
  deriving DecidableEq

/-- One mapped entry (lines 328-335); `x || ''` keeps a present nonempty
string, and `data.createdAt || null` turns a falsy `createdAt` into `null`. -/
def toItem (kv : String × Record) : ReportItem :=
  { hash := kv.1,
    fileName := (kv.2.fileName.getD ""),
    status := (kv.2.status.getD ""),
    fileUrl := (kv.2.fileUrl.getD ""),
    mimeType := (kv.2.mimeType.getD ""),
    createdAt :=
      match kv.2.createdAt with
      | some s => if s = "" then none else some s
      | none => none }

/-- `a.createdAt ? new Date(a.createdAt).getTime() : 0`; `none` is `NaN`. -/
def itemTime (parse : String → Option Int) (it : ReportItem) : Option Int :=
  match it.createdAt with
  | none => some 0
  | some s => parse s

/-- The comparator `(a, b) => bTime - aTime`, composed with the ECMAScript
`SortCompare` rule that a `NaN` comparator value counts as `+0`. -/
def reportCmp (parse : String → Option Int) (a b : ReportItem) : Int :=
  match itemTime parse b, itemTime parse a with
  | some bt, some ta => bt - ta
  | _, _ => 0

/-- Stable insertion of `x` in front of the first element it need not
follow (comparator value `≤ 0`). -/
def insertJS (c : α → α → Int) (x : α) : List α → List α
  | [] => [x]
  | y :: ys => if c x y ≤ 0 then x :: y :: ys else y :: insertJS c x ys

/-- A stable comparator sort, the behavior ECMAScript requires of
`Array.prototype.sort` for a consistent comparator. -/
def sortJS (c : α → α → Int) : List α → List α
  | [] => []
  | x :: xs => insertJS c x (sortJS c xs)

/-- The `GET /api/reports` handler body: map the registry entries in object
order, then sort with the comparator. -/
def apiReports (parse : String → Option Int) (reports : List (String × Record)) :
    List ReportItem :=
  sortJS (reportCmp parse) (reports.map toItem)

/-!
### `encodeURIComponent` and URL assembly (server.js lines 275-283)

`encodeURIComponent` leaves the unreserved characters
`A-Z a-z 0-9 - _ . ! ~ * ' ( )` alone and percent-encodes every byte of the
UTF-8 encoding of any other character, with uppercase hex digits.
-/

def isUriUnreservedChar (c : Char) : Bool :=
  c.isAlpha || c.isDigit ||
    c.toNat == 45 || c.toNat == 95 || c.toNat == 46 || c.toNat == 33 ||
    c.toNat == 126 || c.toNat == 42 || c.toNat == 39 || c.toNat == 40 ||
    c.toNat == 41

def hexDigitChar (n : Nat) : Char :=
  if n < 10 then Char.ofNat (48 + n) else Char.ofNat (55 + n)

def utf8Bytes (c : Char) : List Nat :=
  let n := c.toNat
  if n < 128 then [n]
  else if n < 2048 then [192 + n / 64, 128 + n % 64]
  else if n < 65536 then [224 + n / 4096, 128 + (n / 64) % 64, 128 + n % 64]
  else [240 + n / 262144, 128 + (n / 4096) % 64, 128 + (n / 64) % 64, 128 + n % 64]

def pctEncodeByte (b : Nat) : List Char :=
  [Char.ofNat 37, hexDigitChar (b / 16), hexDigitChar (b % 16)]

def encodeURIComponent (s : String) : String :=
  String.mk (s.data.flatMap fun c =>
    if isUriUnreservedChar c then [c] else (utf8Bytes c).flatMap pctEncodeByte)

/-- `(cfg.publicBaseUrl || '').replace(/\/$/, '')`: drop one trailing slash. -/
def stripTrailingSlash (s : String) : String :=
  if s.data.getLast? = some (Char.ofNat 47) then String.mk s.data.dropLast else s

/-- JavaScript `String.prototype.split('/')` on the character sequence:
`""` splits to `[""]`, separators at the edges produce empty segments. -/
def jsSplitSlashAux : List Char → List Char → List String
  | [], acc => [String.mk acc.reverse]
  | c :: cs, acc =>
    if c = Char.ofNat 47 then String.mk acc.reverse :: jsSplitSlashAux cs []
    else jsSplitSlashAux cs (c :: acc)

def jsSplitSlash (s : String) : List String := jsSplitSlashAux s.data []

/-- The encoded storage path (lines 279-282): split on `/`, percent-encode
each segment, rejoin with the literal separators. -/
def encodePathSegments (targetName : String) : String :=
  String.intercalate "/" ((jsSplitSlash targetName).map encodeURIComponent)

/-!
### `POST /upload` (server.js lines 254-309)

The request carries the multer file (with its in-memory buffer) and the two
optional form fields; `none` is an absent field, `some ""` a present empty
one — the source reads both through truthiness tests.  The environment
carries the config `ensureB2Ready` resolved, the outcome of
`uploadFileToB2`, the `crypto` module's SHA-256-hex function and the
current ISO timestamp.  The handler returns the HTTP response and the
registry write it performs, if any.
-/

structure UFile where
  originalname : String
  buffer : List Nat
  mimetype : String
  size : Nat
  deriving DecidableEq

structure UploadReq where
  file : Option UFile
  hashField : Option String
  targetNameField : Option String
  deriving DecidableEq

structure UploadEnv where
  cfg : B2Config
  uploadR : JsResult Nat
  sha256hex : List Nat → String
  nowIso : String

structure OkBody where
  hash : String
  fileName : String
  fileUrl : String
  mimeType : String
  size : Option Nat
  deriving DecidableEq

inductive UploadResp where
  | err (status : Nat)
  | ok (body : OkBody)
  deriving DecidableEq

/-- `req.body && req.body.hash ? String(req.body.hash) : undefined` (line 265):
an absent or empty (falsy) field yields `undefined`. -/
def providedHashOf (req : UploadReq) : Option String :=
  match req.hashField with
  | some s => if s = "" then none else some s
  | none => none

/-- Lines 268-269: `originalName = req.file.originalname || 'file'` and
`targetName = req.body.targetName ? String(req.body.targetName) : originalName`. -/
def storageNameOf (req : UploadReq) (f : UFile) : String :=
  let originalName := if f.originalname = "" then "file" else f.originalname
  match req.targetNameField with
  | some s => if s = "" then originalName else s
  | none => originalName

/-- Line 270: `req.file.mimetype || 'application/octet-stream'`. -/
def mimeTypeOf (f : UFile) : String :=
  if f.mimetype = "" then "application/octet-stream" else f.mimetype

/-- Lines 277-283: the public URL built from the base (one trailing slash
stripped), the literal `/file/` segment, the escaped bucket name and the
segment-encoded storage name. -/
def fileUrlOf (cfg : B2Config) (targetName : String) : String :=
  stripTrailingSlash cfg.publicBaseUrl ++ "/file/" ++
    encodeURIComponent cfg.bucketName ++ "/" ++ encodePathSegments targetName

def uploadHandler (env : UploadEnv) (req : UploadReq) :
    UploadResp × Option (String × Record) :=
  match req.file with
  | none => (.err 400, none)
  | some f =>
    if env.cfg.enabled = false then (.err 500, none)
    else
      let hash := (providedHashOf req).getD (env.sha256hex f.buffer)
      let targetName := storageNameOf req f
      let mimeType := mimeTypeOf f
      match env.uploadR with
      | .err _ => (.err 502, none)
      | .ok _ =>
        let fileUrl := fileUrlOf env.cfg targetName
        let written : Record :=
          { fileName := some targetName, status := some "أصلي",
            fileUrl := some fileUrl, mimeType := some mimeType,
            createdAt := some env.nowIso }
        (.ok { hash := hash, fileName := targetName, fileUrl := fileUrl,
               mimeType := mimeType,
               size := if f.size = 0 then none else some f.size },
         some (hash, written))

/-!
### `GET /file` (server.js lines 313-324)

`req.query.hash` is `none` when the parameter is absent; Express hands a
bare `?hash=` over as the (falsy) empty string, which the source's
truthiness test rejects the same way.
-/

inductive FileResp where
  | badRequest
  | notFound
  | redirect (url : String)
  deriving DecidableEq

def fileHandler (reports : JsVal) (hashQ : Option String) : FileResp :=
  match hashQ with
  | none => .badRequest
  | some h =>
    if h = "" then .badRequest
    else
      match jsProp reports h with
      | none => .notFound
      | some r =>
        match r.fileUrl with
        | none => .notFound
        | some u => if u = "" then .notFound else .redirect u

/-!
### Concurrency model of `ensureB2Authorized` / `ensureB2Ready` (lines 70-101, 136-195)

Node runs callers on a single thread: an `async` function executes
atomically from one `await` to the next.  `ensureB2Authorized` therefore
has one atomic entry segment — credentials check, fresh-cache check,
in-flight-slot check, and (in the install branch) the slot installation
`b2AuthPromise = (async () => ...)()`, whose body synchronously issues the
`b2.authorize()` network call before suspending — followed by a suspension
until the promise settles.  The owner's resumption runs the
`finally { b2AuthPromise = null }`; a joiner just returns the shared
promise.  `ensureB2Ready`'s entry segment likewise installs the
never-cleared `b2InitPromise` and runs the init body up to its first
`await`, which is `ensureB2Authorized(true)`; the bucket-discovery calls
that follow the handshake perform no authorize call and are abstracted
into the completion of the init.

Handshakes are numbered in the order they are started; `resolved` collects
the settled outcome of each, chosen freely by the environment.  On a
successful settlement the promise body stores the auth response
(`b2LastAuthAt` / `b2LastAuthResponse`) before any awaiter resumes, so the
`resolve` step updates the cache.  The 23-hour TTL is abstracted: a cached
response present in `cache` counts as fresh, which is the code's behavior
whenever the trace takes less than the TTL.
-/

inductive AuthOutcome where
  | succ (v : Nat)
  | fail (e : Nat)
  deriving DecidableEq

/-- The program counter of one concurrent caller: an `ensureB2Authorized`
caller (`a`-states) or an `ensureB2Ready` caller (`r`-states). -/
inductive Pc where
  | aStart (force : Bool)
  | aWaitOwn (p : Nat)
  | aWaitJoin (p : Nat)
  | aDone (r : AuthOutcome)
  | rStart
  | rAuthOwn (p : Nat)
  | rAuthJoin (p : Nat)
  | rWaitInit
  | rDone
  deriving DecidableEq

/-- The shared module state plus the callers' program counters.
`slot` is `b2AuthPromise` (the id of the in-flight handshake), `cache` is
`b2LastAuthResponse` (with freshness abstracted), `started` counts the
handshakes ever started, `initSlot`/`initDone` model `b2InitPromise` being
installed / settled, and `credsOk` / `bucketEnvOk` are the immutable
presence of the credential and bucket environment variables. -/
structure Sys where
  tasks : List Pc
  slot : Option Nat
  cache : Option Nat
  started : Nat
  resolved : List (Nat × AuthOutcome)
  initSlot : Bool
  initDone : Bool
  credsOk : Bool
  bucketEnvOk : Bool
  deriving DecidableEq

/-- The effect of one atomic entry segment on the shared state: the caller's
next program counter and the new values of the mutable cells it may touch. -/
structure EntryEff where
  pc : Pc
  slot : Option Nat
  started : Nat
  initSlot : Bool
  initDone : Bool
  deriving DecidableEq

def applyEff (s : Sys) (i : Nat) (e : EntryEff) : Sys :=
  { s with tasks := s.tasks.set i e.pc, slot := e.slot, started := e.started,
           initSlot := e.initSlot, initDone := e.initDone }

/-- The atomic entry segment of `ensureB2Authorized(force)` (lines 76-95):
throw on missing credentials; return the fresh cached response unless
forced; join an in-flight promise; otherwise install the slot and
synchronously start a new handshake. -/
def authEntry (s : Sys) (force : Bool) : EntryEff :=
  if s.credsOk = false then
    { pc := .aDone (.fail 0), slot := s.slot, started := s.started,
      initSlot := s.initSlot, initDone := s.initDone }
  else
    match force, s.cache with
    | false, some v =>
      { pc := .aDone (.succ v), slot := s.slot, started := s.started,
        initSlot := s.initSlot, initDone := s.initDone }
    | _, _ =>
      match s.slot with
      | some p =>
        { pc := .aWaitJoin p, slot := s.slot, started := s.started,
          initSlot := s.initSlot, initDone := s.initDone }
      | none =>
        { pc := .aWaitOwn s.started, slot := some s.started,
          started := s.started + 1, initSlot := s.initSlot,
          initDone := s.initDone }

/-- The atomic entry segment of `ensureB2Ready` (lines 136-144): return the
installed `b2InitPromise` if any; otherwise install it and run the init body
up to its first suspension — either the early return of the disabled config
when the environment configuration is incomplete, or the entry segment of
`ensureB2Authorized(true)`, which skips the cache and joins or starts the
handshake. -/
def readyEntry (s : Sys) : EntryEff :=
  if s.initSlot then
    { pc := .rWaitInit, slot := s.slot, started := s.started,
      initSlot := s.initSlot, initDone := s.initDone }
  else if s.credsOk = false || s.bucketEnvOk = false then
    { pc := .rDone, slot := s.slot, started := s.started,
      initSlot := true, initDone := true }
  else
    match s.slot with
    | some p =>
      { pc := .rAuthJoin p, slot := s.slot, started := s.started,
        initSlot := true, initDone := s.initDone }
    | none =>
      { pc := .rAuthOwn s.started, slot := some s.started,
        started := s.started + 1, initSlot := true, initDone := s.initDone }

def setTask (s : Sys) (i : Nat) (pc : Pc) : Sys :=
  { s with tasks := s.tasks.set i pc }

/-- The interleaving semantics: any enabled caller segment, network
settlement, or awaiter resumption may fire. -/
inductive Step : Sys → Sys → Prop where
  | authStart (s : Sys) (i : Nat) (force : Bool)
      (h : s.tasks[i]? = some (.aStart force)) :
      Step s (applyEff s i (authEntry s force))
  | readyStart (s : Sys) (i : Nat)
      (h : s.tasks[i]? = some .rStart) :
      Step s (applyEff s i (readyEntry s))
  | resolve (s : Sys) (p : Nat) (r : AuthOutcome)
      (hp : p < s.started) (hr : s.resolved.lookup p = none) :
      Step s { s with resolved := (p, r) :: s.resolved,
                      cache := match r with
                               | .succ v => some v
                               | .fail _ => s.cache }
  | authOwnWake (s : Sys) (i p : Nat) (r : AuthOutcome)
      (h : s.tasks[i]? = some (.aWaitOwn p)) (hr : s.resolved.lookup p = some r) :
      Step s (setTask { s with slot := none } i (.aDone r))
  | authJoinWake (s : Sys) (i p : Nat) (r : AuthOutcome)
      (h : s.tasks[i]? = some (.aWaitJoin p)) (hr : s.resolved.lookup p = some r) :
      Step s (setTask s i (.aDone r))
  | readyAuthOwnWake (s : Sys) (i p : Nat) (r : AuthOutcome)
      (h : s.tasks[i]? = some (.rAuthOwn p)) (hr : s.resolved.lookup p = some r) :
      Step s (setTask { s with slot := none, initDone := true } i .rDone)
  | readyAuthJoinWake (s : Sys) (i p : Nat) (r : AuthOutcome)
      (h : s.tasks[i]? = some (.rAuthJoin p)) (hr : s.resolved.lookup p = some r) :
      Step s (setTask { s with initDone := true } i .rDone)
  | readyJoinWake (s : Sys) (i : Nat)
      (h : s.tasks[i]? = some .rWaitInit) (hd : s.initDone = true) :
      Step s (setTask s i .rDone)

def Reach (s t : Sys) : Prop := Relation.ReflTransGen Step s t

/-- A caller that has not run yet. -/
def isEntryPc : Pc → Bool
  | .aStart _ => true
  | .rStart => true
  | _ => false

/-- A fresh process state: no handshake started, no slot installed, every
caller still to run. -/
def cleanInit (s : Sys) : Bool :=
  s.tasks.all isEntryPc && s.slot == none && s.started == 0 &&
    s.resolved == [] && s.initSlot == false && s.initDone == false

/-- Handshakes started but not yet settled. -/
def unresolvedCount (s : Sys) : Nat :=
  ((List.range s.started).filter fun p => s.resolved.lookup p == none).length

/-- Caller `i` is awaiting handshake `p` inside `ensureB2Authorized`. -/
def waitingOn (s : Sys) (i p : Nat) : Bool :=
  s.tasks[i]? == some (.aWaitOwn p) || s.tasks[i]? == some (.aWaitJoin p)

/-- Every caller has returned. -/
def allDone (s : Sys) : Bool :=
  s.tasks.all fun pc =>
    match pc with
    | .aDone _ => true
    | .rDone => true
    | _ => false

/-- The initial state of the `N concurrent ensureReady calls` scenario:
credentials and a bucket variable are configured, no session exists. -/
def readyInit (n : Nat) : Sys :=
  { tasks := List.replicate n .rStart, slot := none, cache := none,
    started := 0, resolved := [], initSlot := false, initDone := false,
    credsOk := true, bucketEnvOk := true }

/-- Caller `i` owns the in-flight handshake `p`: it installed `b2AuthPromise`
and its resumption will run the `finally` that clears it. -/
def ownerAt (s : Sys) (i p : Nat) : Prop :=
  s.tasks[i]? = some (.aWaitOwn p) ∨ s.tasks[i]? = some (.rAuthOwn p)

/-- The inductive invariant of the single-flight guard: settled handshakes
were started and are settled once; a started-but-unsettled handshake can
only be the slotted one; the slot points at a started handshake and has
exactly one owner. -/
structure Inv (s : Sys) : Prop where
  resKeysLt : ∀ p r, (p, r) ∈ s.resolved → p < s.started
  resNodup : (s.resolved.map Prod.fst).Nodup
  unresolvedSlot : ∀ p, p < s.started → s.resolved.lookup p = none → s.slot = some p
  slotLt : ∀ p, s.slot = some p → p < s.started
  ownerSlot : ∀ i p, ownerAt s i p → s.slot = some p
  ownerUnique : ∀ i j p q, ownerAt s i p → ownerAt s j q → i = j
  slotOwner : ∀ p, s.slot = some p → ∃ i, ownerAt s i p

/-- Trace invariant used for the shared-result property: caller `i` is still
awaiting handshake `p`, or it has returned exactly the settled outcome of
`p`. -/
def WaiterFate (p i : Nat) (t : Sys) : Prop :=
  waitingOn t i p = true ∨
    ∃ r, t.tasks[i]? = some (.aDone r) ∧ t.resolved.lookup p = some r

/-- The inductive invariant of the `N concurrent ensureReady` scenario. -/
def ReadyInv (n : Nat) (s : Sys) : Prop :=
  s.credsOk = true ∧ s.bucketEnvOk = true ∧
  (s.initSlot = false →
    s.started = 0 ∧ s.slot = none ∧ s.tasks = List.replicate n .rStart) ∧
  (s.initSlot = true → s.started = 1) ∧
  (∀ pc ∈ s.tasks, pc = .rStart ∨ pc = .rWaitInit ∨ pc = .rAuthOwn 0 ∨
    pc = .rAuthJoin 0 ∨ pc = .rDone)

/-!
### Concrete inputs used by counterexamples and witnesses
-/

/-- A failure whose payload carries HTTP status 401 and nothing else. -/
def err401 : JsError :=
  { respStatus := some 401, respCode := none, ownCode := none, ownStatus := none }

/-- First-attempt environment whose authorize call itself fails with 401. -/
def cxAuthFailEnv : AttemptEnv :=
  { authR := .err err401, getUrlR := .ok (), uploadR := .ok 0 }

/-- An attempt environment in which every b2 call succeeds. -/
def okAttemptEnv : AttemptEnv :=
  { authR := .ok (), getUrlR := .ok (), uploadR := .ok 7 }

/-- A date parser double: one known-good ISO string, everything else `NaN`. -/
def cxParse : String → Option Int := fun s =>
  if s = "2024-01-02T00:00:00.000Z" then some 100 else none

def cxRecU : Record :=
  { fileName := none, status := none, fileUrl := none, mimeType := none,
    createdAt := some "not-a-date" }

def cxRecA : Record :=
  { fileName := none, status := none, fileUrl := none, mimeType := none,
    createdAt := some "2024-01-02T00:00:00.000Z" }

/-- A registry holding an unparseable-timestamp record before a dated one. -/
def cxReports : List (String × Record) := [("u", cxRecU), ("a", cxRecA)]

def cxUploadEnv : UploadEnv :=
  { cfg := { enabled := true, bucketId := "bid", bucketName := "bkt",
             publicBaseUrl := "https://f003.example" },
    uploadR := .ok 1,
    sha256hex := fun _ => "cafebabe",
    nowIso := "2024-01-02T00:00:00.000Z" }

/-- A multer file entry for a zero-byte upload: the part is present, the
in-memory buffer is empty. -/
def cxEmptyFile : UFile :=
  { originalname := "empty.pdf", buffer := [], mimetype := "application/pdf",
    size := 0 }

def cxEmptyReq : UploadReq :=
  { file := some cxEmptyFile, hashField := none, targetNameField := none }

/-- The response body the handler produces for `cxUploadEnv`/`cxEmptyReq`. -/
def cxOkBody : OkBody :=
  { hash := "cafebabe", fileName := "empty.pdf",
    fileUrl := "https://f003.example/file/bkt/empty.pdf",
    mimeType := "application/pdf", size := none }

/-- The registry record the handler writes for `cxUploadEnv`/`cxEmptyReq`. -/
def cxWrittenRec : Record :=
  { fileName := some "empty.pdf", status := some "أصلي",
    fileUrl := some "https://f003.example/file/bkt/empty.pdf",
    mimeType := some "application/pdf",
    createdAt := some "2024-01-02T00:00:00.000Z" }

/-- A ready environment whose authorize handshake fails with 401. -/
def cxReadyEnv : ReadyEnv :=
  { b2KeyId := "key", b2AppKey := "app", b2BucketIdEnv := "bid",
    b2BucketNameEnv := "", b2PublicBaseOverride := "",
    authorizeR := .err err401, listBucketsR := .err err401,
    getBucketByIdR := .err err401, getBucketByNameR := .err err401 }

/-- Two concurrent `ensureB2Authorized(false)` callers on a fresh process. -/
def authInit2 : Sys :=
  { tasks := [.aStart false, .aStart false], slot := none, cache := none,
    started := 0, resolved := [], initSlot := false, initDone := false,
    credsOk := true, bucketEnvOk := true }

/-- A concrete interleaving of the two callers: both enter before the
handshake settles, the owner and the joiner then wake in turn. -/
def cxS1 : Sys := applyEff authInit2 0 (authEntry authInit2 false)

def cxS2 : Sys := applyEff cxS1 1 (authEntry cxS1 false)

def cxS3 : Sys :=
  { cxS2 with resolved := (0, .succ 5) :: cxS2.resolved, cache := some 5 }

def cxS4 : Sys := setTask { cxS3 with slot := none } 0 (.aDone (.succ 5))

def cxS5 : Sys := setTask cxS4 1 (.aDone (.succ 5))

/-- The first of two concurrent `ensureB2Ready` callers has entered. -/
def cxR1 : Sys := applyEff (readyInit 2) 0 (readyEntry (readyInit 2))

/-!
## Theorems

Shared lemmas come first, then one theorem (with its witness or
counterexample) per specification claim.
-/

/-- C9: `GET /file` answers 400 when the hash query parameter is missing —
absent, or Express's bare `?hash=` empty string, which supplies no
fingerprint; 404 when no record matches the fingerprint or the matching
record holds no stored URL (in particular the seed record `"123abc"` before
any upload); and a 302 redirect to the stored URL otherwise. -/
theorem fileHandler_contract (reports : JsVal) (h : Option String) :
    (h = none ∨ h = some "" → fileHandler reports h = .badRequest) ∧
    (∀ s, h = some s → s ≠ "" → jsProp reports s = none →
      fileHandler reports h = .notFound) ∧
    (∀ s r, h = some s → s ≠ "" → jsProp reports s = some r →
      (r.fileUrl = none ∨ r.fileUrl = some "") →
      fileHandler reports h = .notFound) ∧
    (∀ s r u, h = some s → s ≠ "" → jsProp reports s = some r →
      r.fileUrl = some u → u ≠ "" → fileHandler reports h = .redirect u) ∧
    (∀ nowIso, fileHandler (.jsObj (seedReports nowIso)) (some "123abc") = .notFound) := by
  refine ⟨?_, ?_, ?_, ?_, ?_⟩
  · rintro (rfl | rfl) <;> simp [fileHandler]
  · rintro s rfl hs hl
    simp [fileHandler, hs, hl]
  · rintro s r rfl hs hl (hu | hu) <;> simp [fileHandler, hs, hl, hu]
  · rintro s r u rfl hs hl hu hne
    simp [fileHandler, hs, hl, hu, hne]
  · intro nowIso
    simp [fileHandler, seedReports, jsProp]

theorem fileHandler_contract_witness :
    fileHandler (.jsObj (seedReports "T")) (some "123abc") = .notFound ∧
    fileHandler (.jsObj (seedReports "T")) none = .badRequest ∧
    fileHandler (.jsObj [("abc",
      { fileName := none, status := none, fileUrl := some "https://x/y",
        mimeType := none, createdAt := none })]) (some "abc") =
      .redirect "https://x/y" := by
  refine ⟨?_, ?_, ?_⟩
  · exact (fileHandler_contract (.jsObj (seedReports "T")) (some "123abc")).2.2.2.2 "T"
  · exact (fileHandler_contract (.jsObj (seedReports "T")) none).1 (Or.inl rfl)
  · exact (fileHandler_contract (.jsObj [("abc",
      { fileName := none, status := none, fileUrl := some "https://x/y",
        mimeType := none, createdAt := none })]) (some "abc")).2.2.2.1
      "abc"
      { fileName := none, status := none, fileUrl := some "https://x/y",
        mimeType := none, createdAt := none }
      "https://x/y" rfl (by decide) (by decide) rfl (by decide)

/-- C4 counterexample: a store file whose content parses to the JSON array
`[]` — syntactically valid JSON but malformed as a registry store, which the
specification says must be a `fingerprint -> Record` object map.  The source
accepts any truthy `typeof "object"` value, so `loadReports` returns the
array itself, which owns no `"123abc"` property: the service starts with no
seed entry, refuting the claim that every malformed store yields the seed. -/
theorem loadReports_claim_counterexample :
    loadReports "T" (some (.jsArr 0)) = .jsArr 0 ∧
    jsProp (loadReports "T" (some (.jsArr 0))) "123abc" = none := by
  decide

/-- C4 amended: on a missing or unreadable store file, on content that fails
to parse, and on content parsing to a non-object value — everything the
`parsed && typeof parsed === "object"` test refuses — `loadReports` returns
the seed map holding the placeholder under `"123abc"`; content parsing to a
truthy object, a JSON array included, is returned as-is. -/
theorem loadReports_seed_fallback (nowIso : String) (raw : Option JsVal) :
    ((∀ v, raw = some v → isTruthyObject v = false) →
      loadReports nowIso raw = .jsObj (seedReports nowIso) ∧
      jsProp (loadReports nowIso raw) "123abc" =
        some { fileName := some "report1.pdf", status := some "????â?â?",
               fileUrl := none, mimeType := none, createdAt := some nowIso }) ∧
    (∀ m, raw = some (.jsObj m) → loadReports nowIso raw = .jsObj m) ∧
    (∀ k, raw = some (.jsArr k) → loadReports nowIso raw = .jsArr k) := by
  refine ⟨?_, ?_, ?_⟩
  · intro hv
    cases raw with
    | none => simp [loadReports, seedReports, jsProp]
    | some v =>
      have := hv v rfl
      simp [loadReports, this, seedReports, jsProp]
  · rintro m rfl
    simp [loadReports, isTruthyObject]
  · rintro k rfl
    simp [loadReports, isTruthyObject]

theorem loadReports_seed_fallback_witness :
    loadReports "T" none = .jsObj (seedReports "T") ∧
    loadReports "T" (some .jsNull) = .jsObj (seedReports "T") ∧
    loadReports "T" (some (.jsObj [])) = .jsObj [] := by
  refine ⟨?_, ?_, ?_⟩
  · exact ((loadReports_seed_fallback "T" none).1 (by intro v hv; cases hv)).1
  · exact ((loadReports_seed_fallback "T" (some .jsNull)).1
      (by intro v hv; cases hv; rfl)).1
  · exact (loadReports_seed_fallback "T" (some (.jsObj []))).2.1 [] rfl

theorem char_toNat_lt (c : Char) : c.toNat < 1114112 := by
  have h := c.valid
  simp [UInt32.isValidChar, Nat.isValidChar] at h
  have hv : c.toNat = c.val.toNat := rfl
  rw [hv]
  rcases h with h | h <;> omega

theorem utf8Bytes_lt (c : Char) : ∀ b ∈ utf8Bytes c, b < 256 := by
  have hc := char_toNat_lt c
  intro b hb
  simp only [utf8Bytes] at hb
  split_ifs at hb <;> simp at hb <;> omega

set_option maxRecDepth 4096 in
theorem pct_ne_slash : ∀ b, b < 256 → Char.ofNat 47 ∉ pctEncodeByte b := by
  decide

/-- Percent-encoding introduces no `/` character: an unreserved character is
kept as itself and `/` is not unreserved, while a percent escape consists of
`%` and two hex digits. -/
theorem slash_not_mem_encodeURIComponent (s : String) :
    Char.ofNat 47 ∉ (encodeURIComponent s).data := by
  intro hmem
  have hdata : (encodeURIComponent s).data =
      s.data.flatMap (fun c =>
        if isUriUnreservedChar c then [c] else (utf8Bytes c).flatMap pctEncodeByte) := rfl
  rw [hdata, List.mem_flatMap] at hmem
  obtain ⟨c, _, hmem⟩ := hmem
  cases hu : isUriUnreservedChar c with
  | true =>
    rw [if_pos hu] at hmem
    simp only [List.mem_singleton] at hmem
    rw [← hmem] at hu
    exact absurd hu (by decide)
  | false =>
    rw [if_neg (by simp [hu]), List.mem_flatMap] at hmem
    obtain ⟨b, hb, hmem⟩ := hmem
    exact pct_ne_slash b (utf8Bytes_lt c b hb) hmem

/-- The success shape of the upload handler: with a file present, the store
enabled and the upload succeeding, the response and the registry write are
exactly these. -/
theorem uploadHandler_ok_shape (env : UploadEnv) (req : UploadReq) (f : UFile)
    (v : Nat) (hfile : req.file = some f) (hen : env.cfg.enabled = true)
    (hup : env.uploadR = .ok v) :
    uploadHandler env req =
      (.ok { hash := (providedHashOf req).getD (env.sha256hex f.buffer),
             fileName := storageNameOf req f,
             fileUrl := fileUrlOf env.cfg (storageNameOf req f),
             mimeType := mimeTypeOf f,
             size := if f.size = 0 then none else some f.size },
       some ((providedHashOf req).getD (env.sha256hex f.buffer),
         { fileName := some (storageNameOf req f), status := some "أصلي",
           fileUrl := some (fileUrlOf env.cfg (storageNameOf req f)),
           mimeType := some (mimeTypeOf f),
           createdAt := some env.nowIso })) := by
  simp [uploadHandler, hfile, hen, hup]

/-- C6 counterexample: a multipart request whose file part is present with a
zero-byte buffer.  `req.file` is truthy, so the `!req.file` guard does not
fire: instead of the claimed 400 rejection the handler contacts the store,
uploads the empty file and writes a registry record. -/
theorem uploadHandler_emptybuffer_counterexample :
    cxEmptyReq.file = some cxEmptyFile ∧ cxEmptyFile.buffer = [] ∧
    (uploadHandler cxUploadEnv cxEmptyReq).1 ≠ .err 400 ∧
    (uploadHandler cxUploadEnv cxEmptyReq).2 = some ("cafebabe", cxWrittenRec) := by
  refine ⟨rfl, rfl, ?_, ?_⟩ <;> decide

/-- C6 amended: the handler rejects with 400 exactly when the multipart file
part is absent — doing so before consulting the store or the registry (the
response is independent of the environment and nothing is written).  A
present file with an empty buffer is not rejected: when the store is enabled
and the upload succeeds it is recorded like any other upload. -/
theorem uploadHandler_no_file_rejected (env env2 : UploadEnv) (req : UploadReq) :
    (req.file = none → uploadHandler env req = (.err 400, none)) ∧
    (req.file = none → uploadHandler env req = uploadHandler env2 req) ∧
    (∀ f v, req.file = some f → env.cfg.enabled = true → env.uploadR = .ok v →
      ∃ body w, uploadHandler env req = (.ok body, some w)) := by
  refine ⟨?_, ?_, ?_⟩
  · intro hf; simp [uploadHandler, hf]
  · intro hf; simp [uploadHandler, hf]
  · rintro f v hf hen hup
    exact ⟨_, _, uploadHandler_ok_shape env req f v hf hen hup⟩

theorem uploadHandler_no_file_rejected_witness :
    uploadHandler cxUploadEnv
      { file := none, hashField := none, targetNameField := none } =
      (.err 400, none) ∧
    (∃ body w, uploadHandler cxUploadEnv cxEmptyReq = (.ok body, some w)) := by
  constructor
  · exact (uploadHandler_no_file_rejected cxUploadEnv cxUploadEnv
      { file := none, hashField := none, targetNameField := none }).1 rfl
  · exact (uploadHandler_no_file_rejected cxUploadEnv cxUploadEnv cxEmptyReq).2.2
      cxEmptyFile 1 rfl rfl rfl

/-- C7: for every successful upload whose `hash` form field is absent (or
empty, which the source's truthiness test treats as absent), the key under
which the record is written equals the SHA-256 hex digest of the uploaded
bytes, and the response `hash` is that same value. -/
theorem uploadHandler_key_is_computedHash (env : UploadEnv) (req : UploadReq)
    (f : UFile) (body : OkBody) (w : String × Record)
    (hfile : req.file = some f)
    (hnofp : req.hashField = none ∨ req.hashField = some "")
    (hrun : uploadHandler env req = (.ok body, some w)) :
    w.1 = env.sha256hex f.buffer ∧ body.hash = env.sha256hex f.buffer := by
  by_cases hen : env.cfg.enabled = false
  · simp [uploadHandler, hfile, hen] at hrun
  · simp only [Bool.not_eq_false] at hen
    cases hup : env.uploadR with
    | err e => simp [uploadHandler, hfile, hen, hup] at hrun
    | ok v =>
      have hs := uploadHandler_ok_shape env req f v hfile hen hup
      rw [hrun] at hs
      simp only [Prod.mk.injEq, UploadResp.ok.injEq, Option.some.injEq] at hs
      obtain ⟨hbody, hw⟩ := hs
      have hph : providedHashOf req = none := by
        rcases hnofp with hh | hh <;> simp [providedHashOf, hh]
      constructor
      · rw [hw]; simp [hph]
      · rw [hbody]; simp [hph]

theorem uploadHandler_key_is_computedHash_witness :
    ("cafebabe", cxWrittenRec).1 = cxUploadEnv.sha256hex cxEmptyFile.buffer ∧
    cxOkBody.hash = cxUploadEnv.sha256hex cxEmptyFile.buffer :=
  uploadHandler_key_is_computedHash cxUploadEnv cxEmptyReq cxEmptyFile cxOkBody
    ("cafebabe", cxWrittenRec) rfl (Or.inl rfl) (by decide)

/-- C8: the public URL of every successful upload is the store's public base
URL (one trailing slash stripped) joined with the literal `/file/` segment,
the percent-encoded bucket name, and the storage name split on `/` with each
segment individually percent-encoded and rejoined with literal `/`; encoded
segments contain no `/` character (so the separators of the path are exactly
the literal ones), and the storage name `a/b c.pdf` yields the path segments
`a/b%20c.pdf`. -/
theorem uploadHandler_fileUrl_encoding (env : UploadEnv) (req : UploadReq)
    (f : UFile) (body : OkBody) (w : String × Record)
    (hfile : req.file = some f)
    (hrun : uploadHandler env req = (.ok body, some w)) :
    body.fileUrl =
      stripTrailingSlash env.cfg.publicBaseUrl ++ "/file/" ++
        encodeURIComponent env.cfg.bucketName ++ "/" ++
        String.intercalate "/"
          ((jsSplitSlash (storageNameOf req f)).map encodeURIComponent) ∧
    (∀ seg : String, Char.ofNat 47 ∉ (encodeURIComponent seg).data) ∧
    encodePathSegments "a/b c.pdf" = "a/b%20c.pdf" := by
  refine ⟨?_, slash_not_mem_encodeURIComponent, by decide⟩
  by_cases hen : env.cfg.enabled = false
  · simp [uploadHandler, hfile, hen] at hrun
  · simp only [Bool.not_eq_false] at hen
    cases hup : env.uploadR with
    | err e => simp [uploadHandler, hfile, hen, hup] at hrun
    | ok v =>
      have hs := uploadHandler_ok_shape env req f v hfile hen hup
      rw [hrun] at hs
      simp only [Prod.mk.injEq, UploadResp.ok.injEq, Option.some.injEq] at hs
      rw [hs.1]
      rfl

theorem uploadHandler_fileUrl_encoding_witness :
    cxOkBody.fileUrl =
      stripTrailingSlash cxUploadEnv.cfg.publicBaseUrl ++ "/file/" ++
        encodeURIComponent cxUploadEnv.cfg.bucketName ++ "/" ++
        String.intercalate "/"
          ((jsSplitSlash (storageNameOf cxEmptyReq cxEmptyFile)).map
            encodeURIComponent) ∧
    (∀ seg : String, Char.ofNat 47 ∉ (encodeURIComponent seg).data) ∧
    encodePathSegments "a/b c.pdf" = "a/b%20c.pdf" :=
  uploadHandler_fileUrl_encoding cxUploadEnv cxEmptyReq cxEmptyFile cxOkBody
    ("cafebabe", cxWrittenRec) rfl (by decide)

/-- C10: an optional form field supplied as the empty string behaves exactly
as an absent field: the handler's whole outcome (response and registry
write) coincides; an empty `hash` makes the record key fall back to the
computed SHA-256 hex, and an empty `targetName` makes the storage name fall
back to the original file name, or `"file"` when that is empty too. -/
theorem uploadHandler_empty_fields_as_absent (env : UploadEnv) (req : UploadReq) :
    (uploadHandler env { req with hashField := some "" } =
      uploadHandler env { req with hashField := none }) ∧
    (uploadHandler env { req with targetNameField := some "" } =
      uploadHandler env { req with targetNameField := none }) ∧
    (∀ f : UFile, (providedHashOf { req with hashField := some "" }).getD
        (env.sha256hex f.buffer) = env.sha256hex f.buffer) ∧
    (∀ f : UFile, storageNameOf { req with targetNameField := some "" } f =
      if f.originalname = "" then "file" else f.originalname) := by
  refine ⟨?_, ?_, ?_, ?_⟩
  · obtain ⟨file, hf, ht⟩ := req
    cases file <;>
      simp [uploadHandler, providedHashOf, storageNameOf, mimeTypeOf, fileUrlOf]
  · obtain ⟨file, hf, ht⟩ := req
    cases file <;>
      simp [uploadHandler, providedHashOf, storageNameOf, mimeTypeOf, fileUrlOf]
  · intro f; simp [providedHashOf]
  · intro f; simp [storageNameOf]

theorem uploadHandler_empty_fields_as_absent_witness :
    uploadHandler cxUploadEnv
      { file := some cxEmptyFile, hashField := some "", targetNameField := none } =
      uploadHandler cxUploadEnv
        { file := some cxEmptyFile, hashField := none, targetNameField := none } ∧
    storageNameOf
      { file := some cxEmptyFile, hashField := none, targetNameField := some "" }
      cxEmptyFile = "empty.pdf" := by
  constructor
  · exact (uploadHandler_empty_fields_as_absent cxUploadEnv
      { file := some cxEmptyFile, hashField := none, targetNameField := none }).1
  · have h := (uploadHandler_empty_fields_as_absent cxUploadEnv
      { file := some cxEmptyFile, hashField := none, targetNameField := none }).2.2.2
      cxEmptyFile
    simpa using h

theorem insertJS_perm (c : α → α → Int) (x : α) (l : List α) :
    (insertJS c x l).Perm (x :: l) := by
  induction l with
  | nil => simp [insertJS]
  | cons y ys ih =>
    simp only [insertJS]
    split_ifs with h
    · exact List.Perm.refl _
    · exact (ih.cons y).trans (List.Perm.swap x y ys)

theorem sortJS_perm (c : α → α → Int) (l : List α) : (sortJS c l).Perm l := by
  induction l with
  | nil => simp [sortJS]
  | cons x xs ih => exact (insertJS_perm c x (sortJS c xs)).trans (ih.cons x)

theorem insertJS_pairwise (c : α → α → Int) (k : α → Int) (x : α) (l : List α)
    (hl : l.Pairwise fun a b => k b ≤ k a)
    (hx : ∀ y ∈ l, (c x y ≤ 0 ↔ k y ≤ k x)) :
    (insertJS c x l).Pairwise fun a b => k b ≤ k a := by
  induction l with
  | nil => simp [insertJS]
  | cons y ys ih =>
    simp only [insertJS]
    have hy : ∀ z ∈ ys, k z ≤ k y := fun z hz => List.rel_of_pairwise_cons hl hz
    have hys := List.Pairwise.of_cons hl
    split_ifs with h
    · refine List.pairwise_cons.mpr ⟨?_, hl⟩
      intro z hz
      have hkyx : k y ≤ k x := (hx y (List.mem_cons_self y ys)).mp h
      rcases List.mem_cons.mp hz with hzy | hz2
      · rw [hzy]; exact hkyx
      · exact le_trans (hy z hz2) hkyx
    · refine List.pairwise_cons.mpr ⟨?_, ih hys ?_⟩
      · intro z hz
        have hz3 := (insertJS_perm c x ys).mem_iff.mp hz
        rcases List.mem_cons.mp hz3 with hzx | hz4
        · have hky : ¬ k y ≤ k x := fun hk => h ((hx y (List.mem_cons_self y ys)).mpr hk)
          rw [hzx]; omega
        · exact hy z hz4
      · intro z hz; exact hx z (List.mem_cons_of_mem y hz)

theorem sortJS_pairwise (c : α → α → Int) (k : α → Int) (l : List α)
    (hc : ∀ x ∈ l, ∀ y ∈ l, (c x y ≤ 0 ↔ k y ≤ k x)) :
    (sortJS c l).Pairwise fun a b => k b ≤ k a := by
  induction l with
  | nil => simp [sortJS]
  | cons x xs ih =>
    simp only [sortJS]
    refine insertJS_pairwise c k x (sortJS c xs) (ih ?_) ?_
    · intro a ha b hb
      exact hc a (by simp [ha]) b (by simp [hb])
    · intro y hy
      have hmem : y ∈ xs := (sortJS_perm c xs).mem_iff.mp hy
      exact hc x (by simp) y (by simp [hmem])

/-- C5 counterexample: a registry holding a record `"u"` with a present but
unparseable `createdAt` before a record `"a"` dated at time 100.  The
comparator returns `100 - NaN = NaN`, which `Array.prototype.sort` treats as
`+0` (equal), so the stable sort leaves `"u"` in front: the
unparseable-timestamp record sorts first — newest — not as oldest at the end
of the sequence as the claim states. -/
theorem apiReports_claim_counterexample :
    (apiReports cxParse cxReports).map ReportItem.hash = ["u", "a"] ∧
    itemTime cxParse (toItem ("u", cxRecU)) = none ∧
    itemTime cxParse (toItem ("a", cxRecA)) = some 100 := by
  refine ⟨?_, ?_, ?_⟩ <;> decide

/-- C5 amended: `GET /api/reports` returns a permutation of all records (with
fingerprint attached); when every record's `createdAt` is missing or
parseable the list is sorted by effective time descending, a missing
timestamp counting as epoch 0 and hence sorting as oldest among nonnegative
times; a record with a present but unparseable timestamp, however, makes the
comparator return `NaN` — treated by the sort as equality with every
neighbor — so it keeps its relative position under the stable sort instead
of sorting as oldest. -/
theorem apiReports_sorted (parse : String → Option Int)
    (reports : List (String × Record)) :
    (apiReports parse reports).Perm (reports.map toItem) ∧
    ((∀ it ∈ reports.map toItem, (itemTime parse it).isSome) →
      (apiReports parse reports).Pairwise fun x y =>
        (itemTime parse y).getD 0 ≤ (itemTime parse x).getD 0) ∧
    (∀ it : ReportItem, it.createdAt = none → itemTime parse it = some 0) := by
  refine ⟨sortJS_perm _ _, ?_, ?_⟩
  · intro hall
    refine sortJS_pairwise (reportCmp parse)
      (fun it => (itemTime parse it).getD 0) _ ?_
    intro x hx y hy
    obtain ⟨tx, htx⟩ := Option.isSome_iff_exists.mp (hall x hx)
    obtain ⟨ty, hty⟩ := Option.isSome_iff_exists.mp (hall y hy)
    simp [reportCmp, htx, hty]
  · intro it h
    simp [itemTime, h]

theorem apiReports_sorted_witness :
    (apiReports cxParse [("a", cxRecA)]).Perm ([("a", cxRecA)].map toItem) ∧
    (apiReports cxParse [("a", cxRecA)]).Pairwise (fun x y =>
      (itemTime cxParse y).getD 0 ≤ (itemTime cxParse x).getD 0) ∧
    itemTime cxParse
      { hash := "z", fileName := "", status := "", fileUrl := "",
        mimeType := "", createdAt := none } = some 0 :=
  ⟨(apiReports_sorted cxParse [("a", cxRecA)]).1,
   (apiReports_sorted cxParse [("a", cxRecA)]).2.1 (by decide),
   (apiReports_sorted cxParse [("a", cxRecA)]).2.2 _ rfl⟩

/-- C3: `ensureB2Ready` is idempotent — the init body and its single
authorize handshake run at most once per process, every later call returning
the one cached config; absent or incomplete credentials yield the disabled
config through an early return, not a thrown error; and when credentials are
present but the authorize handshake or bucket discovery fails, the catch
converts the failure into the disabled config instead of propagating it. -/
theorem ensureB2Ready_contract (env : ReadyEnv) :
    (∀ n, (ensureB2ReadyRun env n).1 = List.replicate n (b2InitBody env) ∧
      (ensureB2ReadyRun env n).2.1 =
        (if n = 0 then none else some (b2InitBody env)) ∧
      (ensureB2ReadyRun env n).2.2 =
        (if n = 0 then 0 else b2InitAuthCalls env)) ∧
    (env.b2KeyId = "" ∨ env.b2AppKey = "" →
      b2InitBodyTry env = .ok b2ConfigInit ∧ b2InitBody env = b2ConfigInit) ∧
    (∀ e, b2InitBodyTry env = .err e → b2InitBody env = b2ConfigInit) ∧
    (b2ConfigMissing env = false → ∀ e, env.authorizeR = .err e →
      (b2InitBody env).enabled = false) ∧
    (b2ConfigMissing env = false →
      (env.b2BucketIdEnv = "" ∨ env.b2BucketNameEnv = "") →
      ∀ e a, discoverBucket env = .err e → env.authorizeR = .ok a →
        (b2InitBody env).enabled = false) := by
  refine ⟨?_, ?_, ?_, ?_, ?_⟩
  · intro n
    induction n with
    | zero => exact ⟨rfl, rfl, rfl⟩
    | succ m ih =>
      obtain ⟨h1, h2, h3⟩ := ih
      simp only [ensureB2ReadyRun, h1, h2, h3]
      cases m with
      | zero => simp [ensureB2Ready, List.replicate_succ']
      | succ k => simp [ensureB2Ready, List.replicate_succ']
  · intro hk
    have hm : b2ConfigMissing env = true := by
      rcases hk with h | h <;> simp [b2ConfigMissing, h]
    exact ⟨by simp [b2InitBodyTry, hm], by simp [b2InitBody, b2InitBodyTry, hm]⟩
  · intro e he
    simp [b2InitBody, he]
  · intro hm e he
    simp [b2InitBody, b2InitBodyTry, hm, he, b2ConfigInit]
  · intro hm hone e a hd ha
    have hboth : (env.b2BucketIdEnv != "" && env.b2BucketNameEnv != "") = false := by
      rcases hone with h | h <;> simp [h]
    simp [b2InitBody, b2InitBodyTry, hm, ha, hboth, hd, b2ConfigInit]

theorem ensureB2Ready_contract_witness :
    (ensureB2ReadyRun cxReadyEnv 2).1 =
      List.replicate 2 (b2InitBody cxReadyEnv) ∧
    (ensureB2ReadyRun cxReadyEnv 2).2.2 = 1 ∧
    (b2InitBody cxReadyEnv).enabled = false := by
  refine ⟨((ensureB2Ready_contract cxReadyEnv).1 2).1, ?_, ?_⟩
  · have h := ((ensureB2Ready_contract cxReadyEnv).1 2).2.2
    rw [h]; decide
  · exact (ensureB2Ready_contract cxReadyEnv).2.2.2.1 (by decide) err401 rfl

theorem attempt_authForces (a : AttemptEnv) (f : Bool) :
    (attempt a f).2.authForces = [f] := by
  obtain ⟨x, y, z⟩ := a
  cases x <;> cases y <;> cases z <;> rfl

/-- C1 counterexample: a run whose first attempt fails inside
`ensureB2Authorized` itself — the authorize call rejects with HTTP 401 —
before any upload-URL fetch or upload is reached (the first attempt performs
zero `getUploadUrl` calls).  The catch in `uploadFileToB2` wraps the whole
attempt, so the retry fires anyway: two authorize calls happen, refuting
that the single retry is triggered only by an upload or upload-URL-fetch
failure. -/
theorem uploadRetry_claim_counterexample :
    attemptFailStage cxAuthFailEnv = some (.authStage, err401) ∧
    (attempt cxAuthFailEnv false).2.getUrlCalls = 0 ∧
    (attempt cxAuthFailEnv false).2.uploadCalls = 0 ∧
    (uploadFileToB2 cxAuthFailEnv okAttemptEnv).2.authForces = [false, true] ∧
    (uploadFileToB2 cxAuthFailEnv okAttemptEnv).1 = .ok 7 := by
  refine ⟨?_, ?_, ?_, ?_, ?_⟩ <;> decide

/-- C1 amended: `uploadFileToB2` retries exactly once, and the retry is
triggered precisely when the first attempt — whether its authorize step, its
upload-URL fetch, or its upload — fails with an auth-expiry signal; the
retry forces re-authorization first.  A run performs at most 2 authorize
calls, 2 upload-URL fetches and 2 upload attempts; a first failure without
the expiry signal propagates unchanged with no retry, and the retry's own
outcome — success or a second failure — propagates with no further
retries. -/
theorem uploadFileToB2_retry_policy (env1 env2 : AttemptEnv) :
    ((uploadFileToB2 env1 env2).2.authForces.length ≤ 2 ∧
     (uploadFileToB2 env1 env2).2.getUrlCalls ≤ 2 ∧
     (uploadFileToB2 env1 env2).2.uploadCalls ≤ 2) ∧
    (∀ v, (attempt env1 false).1 = .ok v →
      uploadFileToB2 env1 env2 = (.ok v, (attempt env1 false).2)) ∧
    (∀ e, (attempt env1 false).1 = .err e → isExpiredAuthError e = false →
      uploadFileToB2 env1 env2 = (.err e, (attempt env1 false).2)) ∧
    (∀ e, (attempt env1 false).1 = .err e → isExpiredAuthError e = true →
      uploadFileToB2 env1 env2 =
        ((attempt env2 true).1, (attempt env1 false).2.add (attempt env2 true).2) ∧
      (uploadFileToB2 env1 env2).2.authForces = [false, true]) := by
  obtain ⟨a1, g1, u1⟩ := env1
  refine ⟨?_, ?_, ?_, ?_⟩
  · cases a1 <;> cases g1 <;> cases u1 <;>
      obtain ⟨a2, g2, u2⟩ := env2 <;>
      cases a2 <;> cases g2 <;> cases u2 <;>
      simp [uploadFileToB2, attempt, B2Calls.add] <;>
      split_ifs <;> simp
  · intro v hok
    cases h : attempt ⟨a1, g1, u1⟩ false with
    | mk r c =>
      rw [h] at hok
      have hr : r = .ok v := hok
      subst hr
      simp [uploadFileToB2, h]
  · intro e herr hnx
    cases h : attempt ⟨a1, g1, u1⟩ false with
    | mk r c =>
      rw [h] at herr
      have hr : r = .err e := herr
      subst hr
      simp [uploadFileToB2, h, hnx]
  · intro e herr hx
    cases h : attempt ⟨a1, g1, u1⟩ false with
    | mk r c =>
      rw [h] at herr
      have hr : r = .err e := herr
      subst hr
      have hc : c.authForces = [false] := by
        have haf := attempt_authForces ⟨a1, g1, u1⟩ false
        rw [h] at haf
        exact haf
      constructor
      · simp [uploadFileToB2, h, hx]
      · simp [uploadFileToB2, h, hx, B2Calls.add, hc, attempt_authForces]

theorem uploadFileToB2_retry_policy_witness :
    uploadFileToB2 cxAuthFailEnv okAttemptEnv =
      ((attempt okAttemptEnv true).1,
        (attempt cxAuthFailEnv false).2.add (attempt okAttemptEnv true).2) ∧
    uploadFileToB2 okAttemptEnv okAttemptEnv =
      (.ok 7, (attempt okAttemptEnv false).2) := by
  constructor
  · exact ((uploadFileToB2_retry_policy cxAuthFailEnv okAttemptEnv).2.2.2
      err401 (by decide) (by decide)).1
  · exact (uploadFileToB2_retry_policy okAttemptEnv okAttemptEnv).2.1 7 (by decide)

theorem lookup_cons_self (q : Nat) (r : AuthOutcome) (l : List (Nat × AuthOutcome)) :
    ((q, r) :: l).lookup q = some r := by
  simp [List.lookup]

theorem lookup_cons_of_ne {p q : Nat} (r : AuthOutcome) (l : List (Nat × AuthOutcome))
    (h : p ≠ q) : ((q, r) :: l).lookup p = l.lookup p := by
  have hb : (p == q) = false := beq_eq_false_iff_ne.mpr h
  simp [List.lookup, hb]

theorem lookupNone_iff (p : Nat) (l : List (Nat × AuthOutcome)) :
    l.lookup p = none ↔ p ∉ l.map Prod.fst := by
  induction l with
  | nil => simp [List.lookup]
  | cons kv l ih =>
    obtain ⟨k, v⟩ := kv
    by_cases h : p = k
    · subst h
      simp [lookup_cons_self]
    · rw [lookup_cons_of_ne v l h]
      simp [ih, h]

theorem getElem?_set_inv {l : List Pc} {i j : Nat} {pc x : Pc}
    (h : (l.set i pc)[j]? = some x) :
    (j = i ∧ x = pc) ∨ (j ≠ i ∧ l[j]? = some x) := by
  by_cases hij : j = i
  · subst hij
    rw [List.getElem?_set_self'] at h
    cases hl : l[j]? with
    | none => rw [hl] at h; simp at h
    | some c => rw [hl] at h; simp at h; exact Or.inl ⟨rfl, h.symm⟩
  · refine Or.inr ⟨hij, ?_⟩
    rw [List.getElem?_set_ne (fun hh => hij hh.symm)] at h
    exact h

theorem getElem?_length {l : List Pc} {i : Nat} {x : Pc} (h : l[i]? = some x) :
    i < l.length :=
  (List.getElem?_eq_some.mp h).1

/-- A caller segment that neither touches the slot nor starts a handshake
and leaves a non-owner program counter preserves the invariant. -/
theorem inv_applyEff_same {s : Sys} (hInv : Inv s) (i : Nat) (eff : EntryEff)
    (hslot : eff.slot = s.slot) (hstart : eff.started = s.started)
    (hpc : ∀ q, eff.pc ≠ .aWaitOwn q ∧ eff.pc ≠ .rAuthOwn q)
    (hnotown : ∀ p, ¬ ownerAt s i p) :
    Inv (applyEff s i eff) := by
  obtain ⟨h1, h2, h3, h4, h5, h6, h7⟩ := hInv
  refine ⟨?_, ?_, ?_, ?_, ?_, ?_, ?_⟩
  · intro p r hm
    show p < eff.started
    rw [hstart]
    exact h1 p r hm
  · exact h2
  · intro p hp hpl
    show eff.slot = some p
    rw [hslot]
    refine h3 p ?_ hpl
    have hp2 : p < eff.started := hp
    rw [hstart] at hp2
    exact hp2
  · intro p hsp
    have hsp2 : eff.slot = some p := hsp
    rw [hslot] at hsp2
    show p < eff.started
    rw [hstart]
    exact h4 p hsp2
  · intro i' p hown
    rcases hown with hw | hw <;>
      rcases getElem?_set_inv hw with ⟨_, hpcw⟩ | ⟨hne, hold⟩
    · exact absurd hpcw.symm (hpc p).1
    · show eff.slot = some p
      rw [hslot]
      exact h5 i' p (Or.inl hold)
    · exact absurd hpcw.symm (hpc p).2
    · show eff.slot = some p
      rw [hslot]
      exact h5 i' p (Or.inr hold)
  · intro i' j' p q hown1 hown2
    have hold1 : ownerAt s i' p := by
      rcases hown1 with hw | hw <;>
        rcases getElem?_set_inv hw with ⟨_, hpcw⟩ | ⟨hne, hold⟩
      · exact absurd hpcw.symm (hpc p).1
      · exact Or.inl hold
      · exact absurd hpcw.symm (hpc p).2
      · exact Or.inr hold
    have hold2 : ownerAt s j' q := by
      rcases hown2 with hw | hw <;>
        rcases getElem?_set_inv hw with ⟨_, hpcw⟩ | ⟨hne, hold⟩
      · exact absurd hpcw.symm (hpc q).1
      · exact Or.inl hold
      · exact absurd hpcw.symm (hpc q).2
      · exact Or.inr hold
    exact h6 i' j' p q hold1 hold2
  · intro p hsp
    have hsp2 : eff.slot = some p := hsp
    rw [hslot] at hsp2
    obtain ⟨j, hj⟩ := h7 p hsp2
    have hji : j ≠ i := fun he => hnotown p (he ▸ hj)
    refine ⟨j, ?_⟩
    rcases hj with hw | hw
    · exact Or.inl (by rw [show (applyEff s i eff).tasks = s.tasks.set i eff.pc from rfl,
        List.getElem?_set_ne (fun hh => hji hh.symm)]; exact hw)
    · exact Or.inr (by rw [show (applyEff s i eff).tasks = s.tasks.set i eff.pc from rfl,
        List.getElem?_set_ne (fun hh => hji hh.symm)]; exact hw)

/-- A caller segment that installs the slot and starts a fresh handshake,
becoming its owner, preserves the invariant. -/
theorem inv_applyEff_install {s : Sys} (hInv : Inv s) (i : Nat) (eff : EntryEff)
    (hlen : i < s.tasks.length) (hslotOld : s.slot = none)
    (hpc : eff.pc = .aWaitOwn s.started ∨ eff.pc = .rAuthOwn s.started)
    (hslot : eff.slot = some s.started) (hstart : eff.started = s.started + 1) :
    Inv (applyEff s i eff) := by
  obtain ⟨h1, h2, h3, h4, h5, h6, h7⟩ := hInv
  have hownerNew : ownerAt (applyEff s i eff) i s.started := by
    have hset : (applyEff s i eff).tasks[i]? = some eff.pc := by
      show (s.tasks.set i eff.pc)[i]? = some eff.pc
      exact List.getElem?_set_eq_of_lt eff.pc hlen
    rcases hpc with hp | hp
    · exact Or.inl (by rw [hset, hp])
    · exact Or.inr (by rw [hset, hp])
  have hownerInv : ∀ i' p, ownerAt (applyEff s i eff) i' p → i' = i ∧ p = s.started := by
    intro i' p hown
    rcases hown with hw | hw <;>
      rcases getElem?_set_inv hw with ⟨hii, hpcw⟩ | ⟨hne, hold⟩
    · refine ⟨hii, ?_⟩
      rcases hpc with hp | hp <;> rw [hp] at hpcw
      · exact Pc.aWaitOwn.inj hpcw
      · cases hpcw
    · exact absurd (h5 i' p (Or.inl hold)) (by rw [hslotOld]; intro hc; cases hc)
    · refine ⟨hii, ?_⟩
      rcases hpc with hp | hp <;> rw [hp] at hpcw
      · cases hpcw
      · exact Pc.rAuthOwn.inj hpcw
    · exact absurd (h5 i' p (Or.inr hold)) (by rw [hslotOld]; intro hc; cases hc)
  refine ⟨?_, ?_, ?_, ?_, ?_, ?_, ?_⟩
  · intro p r hm
    show p < eff.started
    rw [hstart]
    exact Nat.lt_succ_of_lt (h1 p r hm)
  · exact h2
  · intro p hp hpl
    have hp2 : p < eff.started := hp
    rw [hstart] at hp2
    show eff.slot = some p
    rw [hslot]
    rcases Nat.lt_succ_iff_lt_or_eq.mp hp2 with hlt | heq
    · exact absurd (h3 p hlt hpl) (by rw [hslotOld]; intro hc; cases hc)
    · rw [heq]
  · intro p hsp
    have hsp2 : eff.slot = some p := hsp
    rw [hslot] at hsp2
    show p < eff.started
    rw [hstart, ← Option.some.inj hsp2]
    exact Nat.lt_succ_self _
  · intro i' p hown
    obtain ⟨_, hp⟩ := hownerInv i' p hown
    show eff.slot = some p
    rw [hslot, hp]
  · intro i' j' p q hown1 hown2
    obtain ⟨hi', _⟩ := hownerInv i' p hown1
    obtain ⟨hj', _⟩ := hownerInv j' q hown2
    rw [hi', hj']
  · intro p hsp
    have hsp2 : eff.slot = some p := hsp
    rw [hslot] at hsp2
    exact ⟨i, (Option.some.inj hsp2) ▸ hownerNew⟩

/-- The owner's resumption — clearing the slot and returning — preserves the
invariant whatever outcome the handshake settled with. -/
theorem inv_ownerWake {s : Sys} (hInv : Inv s) {i p : Nat} {r : AuthOutcome}
    (hown : ownerAt s i p) (hres : s.resolved.lookup p = some r)
    (pcNew : Pc) (hpc : ∀ q, pcNew ≠ .aWaitOwn q ∧ pcNew ≠ .rAuthOwn q) (b : Bool) :
    Inv (setTask { s with slot := none, initDone := b } i pcNew) := by
  obtain ⟨h1, h2, h3, h4, h5, h6, h7⟩ := hInv
  have hnoOwner : ∀ i' q, ¬ ownerAt (setTask { s with slot := none, initDone := b } i pcNew) i' q := by
    intro i' q hown'
    have hold : ownerAt s i' q := by
      rcases hown' with hw | hw <;>
        rcases getElem?_set_inv hw with ⟨_, hpcw⟩ | ⟨hne, holdw⟩
      · exact absurd hpcw.symm (hpc q).1
      · exact Or.inl holdw
      · exact absurd hpcw.symm (hpc q).2
      · exact Or.inr holdw
    have hii : i' = i := h6 i' i q p hold hown
    subst hii
    have hq : s.slot = some q := h5 i' q hold
    have hp2 : s.slot = some p := h5 i' p hown
    rw [hq] at hp2
    have hqp : q = p := Option.some.inj hp2
    -- but then i' is still an owner after its pc was overwritten: contradiction
    rcases hown' with hw | hw <;>
      rcases getElem?_set_inv hw with ⟨_, hpcw⟩ | ⟨hne, _⟩
    · exact (hpc q).1 hpcw.symm
    · exact hne rfl
    · exact (hpc q).2 hpcw.symm
    · exact hne rfl
  refine ⟨h1, h2, ?_, ?_, ?_, ?_, ?_⟩
  · intro q hq hql
    have hql2 : s.resolved.lookup q = none := hql
    have hsq : s.slot = some q := h3 q hq hql2
    have hsp : s.slot = some p := h5 i p hown
    rw [hsp] at hsq
    rw [Option.some.inj hsq] at hres
    rw [hres] at hql2
    cases hql2
  · intro q hq
    cases hq
  · intro i' q hown'
    exact absurd hown' (hnoOwner i' q)
  · intro i' j' q q' hown1 hown2
    exact absurd hown1 (hnoOwner i' q)
  · intro q hq
    cases hq

theorem inv_clean {s : Sys} (hclean : cleanInit s = true) : Inv s := by
  simp only [cleanInit, Bool.and_eq_true, List.all_eq_true, beq_iff_eq] at hclean
  obtain ⟨⟨⟨⟨⟨htasks, hslot⟩, hstarted⟩, hres⟩, hinitS⟩, hinitD⟩ := hclean
  refine ⟨?_, ?_, ?_, ?_, ?_, ?_, ?_⟩
  · intro p r hm
    rw [hres] at hm
    cases hm
  · rw [hres]
    simp
  · intro p hp _
    rw [hstarted] at hp
    exact absurd hp (by omega)
  · intro p hp
    rw [hslot] at hp
    cases hp
  · intro i p hown
    exfalso
    rcases hown with hw | hw <;>
      · have hmem := List.getElem?_mem hw
        have h2 := htasks _ hmem
        simp [isEntryPc] at h2
  · intro i j p q hown1 hown2
    exfalso
    rcases hown1 with hw | hw <;>
      · have hmem := List.getElem?_mem hw
        have h2 := htasks _ hmem
        simp [isEntryPc] at h2
  · intro p hp
    rw [hslot] at hp
    cases hp

theorem inv_step {s t : Sys} (hInv : Inv s) (hst : Step s t) : Inv t := by
  cases hst with
  | authStart i force h =>
    have hnotown : ∀ p, ¬ ownerAt s i p := by
      intro p hp
      rcases hp with hp | hp <;> rw [h] at hp <;> cases hp
    by_cases hcred : s.credsOk = false
    · have he : authEntry s force =
          { pc := .aDone (.fail 0), slot := s.slot, started := s.started,
            initSlot := s.initSlot, initDone := s.initDone } := by
        simp [authEntry, hcred]
      rw [he]
      exact inv_applyEff_same hInv i _ rfl rfl
        (fun q => ⟨fun hc => (nomatch hc), fun hc => (nomatch hc)⟩) hnotown
    · cases force with
      | false =>
        cases hc : s.cache with
        | some v =>
          have he : authEntry s false =
              { pc := .aDone (.succ v), slot := s.slot, started := s.started,
                initSlot := s.initSlot, initDone := s.initDone } := by
            simp [authEntry, hcred, hc]
          rw [he]
          exact inv_applyEff_same hInv i _ rfl rfl
            (fun q => ⟨fun hcx => (nomatch hcx), fun hcx => (nomatch hcx)⟩) hnotown
        | none =>
          cases hs : s.slot with
          | some p =>
            have he : authEntry s false =
                { pc := .aWaitJoin p, slot := s.slot, started := s.started,
                  initSlot := s.initSlot, initDone := s.initDone } := by
              simp [authEntry, hcred, hc, hs]
            rw [he]
            exact inv_applyEff_same hInv i _ rfl rfl
              (fun q => ⟨fun hcx => (nomatch hcx), fun hcx => (nomatch hcx)⟩) hnotown
          | none =>
            have he : authEntry s false =
                { pc := .aWaitOwn s.started, slot := some s.started,
                  started := s.started + 1, initSlot := s.initSlot,
                  initDone := s.initDone } := by
              simp [authEntry, hcred, hc, hs]
            rw [he]
            exact inv_applyEff_install hInv i _ (getElem?_length h) hs
              (Or.inl rfl) rfl rfl
      | true =>
        cases hs : s.slot with
        | some p =>
          have he : authEntry s true =
              { pc := .aWaitJoin p, slot := s.slot, started := s.started,
                initSlot := s.initSlot, initDone := s.initDone } := by
            simp [authEntry, hcred, hs]
          rw [he]
          exact inv_applyEff_same hInv i _ rfl rfl
            (fun q => ⟨fun hcx => (nomatch hcx), fun hcx => (nomatch hcx)⟩) hnotown
        | none =>
          have he : authEntry s true =
              { pc := .aWaitOwn s.started, slot := some s.started,
                started := s.started + 1, initSlot := s.initSlot,
                initDone := s.initDone } := by
            simp [authEntry, hcred, hs]
          rw [he]
          exact inv_applyEff_install hInv i _ (getElem?_length h) hs
            (Or.inl rfl) rfl rfl
  | readyStart i h =>
    have hnotown : ∀ p, ¬ ownerAt s i p := by
      intro p hp
      rcases hp with hp | hp <;> rw [h] at hp <;> cases hp
    by_cases hinit : s.initSlot
    · have he : readyEntry s =
          { pc := .rWaitInit, slot := s.slot, started := s.started,
            initSlot := s.initSlot, initDone := s.initDone } := by
        simp [readyEntry, hinit]
      rw [he]
      exact inv_applyEff_same hInv i _ rfl rfl
        (fun q => ⟨fun hcx => (nomatch hcx), fun hcx => (nomatch hcx)⟩) hnotown
    · by_cases hbad : s.credsOk = false || s.bucketEnvOk = false
      · have he : readyEntry s =
            { pc := .rDone, slot := s.slot, started := s.started,
              initSlot := true, initDone := true } := by
          simp [readyEntry, hinit, hbad]
          intro h1 h2
          rw [h1, h2] at hbad
          simp at hbad
        rw [he]
        exact inv_applyEff_same hInv i _ rfl rfl
          (fun q => ⟨fun hcx => (nomatch hcx), fun hcx => (nomatch hcx)⟩) hnotown
      · have hcredT : s.credsOk = true := by
          cases hcc : s.credsOk
          · exact absurd (by simp [hcc]) hbad
          · rfl
        have hbucketT : s.bucketEnvOk = true := by
          cases hcc : s.bucketEnvOk
          · exact absurd (by simp [hcc]) hbad
          · rfl
        cases hs : s.slot with
        | some p =>
          have he : readyEntry s =
              { pc := .rAuthJoin p, slot := s.slot, started := s.started,
                initSlot := true, initDone := s.initDone } := by
            simp [readyEntry, hinit, hcredT, hbucketT, hs]
          rw [he]
          exact inv_applyEff_same hInv i _ rfl rfl
            (fun q => ⟨fun hcx => (nomatch hcx), fun hcx => (nomatch hcx)⟩) hnotown
        | none =>
          have he : readyEntry s =
              { pc := .rAuthOwn s.started, slot := some s.started,
                started := s.started + 1, initSlot := true,
                initDone := s.initDone } := by
            simp [readyEntry, hinit, hcredT, hbucketT, hs]
          rw [he]
          exact inv_applyEff_install hInv i _ (getElem?_length h) hs
            (Or.inr rfl) rfl rfl
  | resolve p r hp hr =>
    obtain ⟨h1, h2, h3, h4, h5, h6, h7⟩ := hInv
    refine ⟨?_, ?_, ?_, h4, h5, h6, h7⟩
    · intro q r' hm
      rcases List.mem_cons.mp hm with he | hm2
      · rw [(Prod.mk.injEq _ _ _ _).mp he |>.1]
        exact hp
      · exact h1 q r' hm2
    · refine List.nodup_cons.mpr ⟨?_, h2⟩
      exact (lookupNone_iff p s.resolved).mp hr
    · intro q hq hql
      by_cases hpq : q = p
      · subst hpq
        rw [lookup_cons_self] at hql
        cases hql
      · rw [lookup_cons_of_ne r s.resolved hpq] at hql
        exact h3 q hq hql
  | authOwnWake i p r h hr =>
    exact inv_ownerWake hInv (Or.inl h) hr (.aDone r)
      (fun q => ⟨fun hcx => (nomatch hcx), fun hcx => (nomatch hcx)⟩) s.initDone
  | authJoinWake i p r h hr =>
    have hnotown : ∀ q, ¬ ownerAt s i q := by
      intro q hq
      rcases hq with hq | hq <;> rw [h] at hq <;> cases hq
    exact inv_applyEff_same hInv i
      ⟨.aDone r, s.slot, s.started, s.initSlot, s.initDone⟩ rfl rfl
      (fun q => ⟨fun hcx => (nomatch hcx), fun hcx => (nomatch hcx)⟩) hnotown
  | readyAuthOwnWake i p r h hr =>
    exact inv_ownerWake hInv (Or.inr h) hr .rDone
      (fun q => ⟨fun hcx => (nomatch hcx), fun hcx => (nomatch hcx)⟩) true
  | readyAuthJoinWake i p r h hr =>
    have hnotown : ∀ q, ¬ ownerAt s i q := by
      intro q hq
      rcases hq with hq | hq <;> rw [h] at hq <;> cases hq
    exact inv_applyEff_same hInv i
      ⟨.rDone, s.slot, s.started, s.initSlot, true⟩ rfl rfl
      (fun q => ⟨fun hcx => (nomatch hcx), fun hcx => (nomatch hcx)⟩) hnotown
  | readyJoinWake i h hd =>
    have hnotown : ∀ q, ¬ ownerAt s i q := by
      intro q hq
      rcases hq with hq | hq <;> rw [h] at hq <;> cases hq
    exact inv_applyEff_same hInv i
      ⟨.rDone, s.slot, s.started, s.initSlot, s.initDone⟩ rfl rfl
      (fun q => ⟨fun hcx => (nomatch hcx), fun hcx => (nomatch hcx)⟩) hnotown

theorem inv_reach {s0 s : Sys} (hclean : cleanInit s0 = true)
    (hreach : Reach s0 s) : Inv s := by
  induction hreach with
  | refl => exact inv_clean hclean
  | tail _ hbc ih => exact inv_step ih hbc

theorem nodup_alleq_length_le {l : List Nat} {v : Nat} (hnd : l.Nodup)
    (hall : ∀ x ∈ l, x = v) : l.length ≤ 1 := by
  cases l with
  | nil => simp
  | cons a t =>
    cases t with
    | nil => simp
    | cons b u =>
      exfalso
      have ha := hall a (by simp)
      have hb := hall b (by simp)
      rw [List.nodup_cons] at hnd
      exact hnd.1 (by rw [ha, ← hb]; simp)

theorem inv_unresolvedCount {s : Sys} (hInv : Inv s) : unresolvedCount s ≤ 1 := by
  unfold unresolvedCount
  cases hslot : s.slot with
  | none =>
    have hnil : (List.range s.started).filter
        (fun p => s.resolved.lookup p == none) = [] := by
      rw [List.filter_eq_nil_iff]
      intro p hp hcontra
      have hlt := List.mem_range.mp hp
      have hres := hInv.unresolvedSlot p hlt (by simpa using hcontra)
      rw [hslot] at hres
      cases hres
    rw [hnil]
    simp
  | some v =>
    apply nodup_alleq_length_le ((List.nodup_range _).filter _)
    intro x hx
    have hmem := List.mem_of_mem_filter hx
    have hcond := List.of_mem_filter hx
    have hlt := List.mem_range.mp hmem
    have hres := hInv.unresolvedSlot x hlt (by simpa using hcond)
    rw [hslot] at hres
    exact (Option.some.inj hres).symm

theorem waitingOn_iff {s : Sys} {i p : Nat} :
    waitingOn s i p = true ↔
      s.tasks[i]? = some (.aWaitOwn p) ∨ s.tasks[i]? = some (.aWaitJoin p) := by
  simp [waitingOn]

theorem tasks_get_applyEff_ne {s : Sys} {j i : Nat} (eff : EntryEff) (hne : j ≠ i) :
    (applyEff s j eff).tasks[i]? = s.tasks[i]? :=
  List.getElem?_set_ne hne

theorem tasks_get_setTask_ne {s : Sys} {j i : Nat} (pc : Pc) (hne : j ≠ i) :
    (setTask s j pc).tasks[i]? = s.tasks[i]? :=
  List.getElem?_set_ne hne

/-- Once settled, a handshake's outcome never changes. -/
theorem lookup_persist {s t : Sys} (hst : Step s t) {p : Nat} {r : AuthOutcome}
    (h : s.resolved.lookup p = some r) : t.resolved.lookup p = some r := by
  cases hst with
  | resolve q r' hq hrq =>
    have hne : p ≠ q := by
      intro he
      rw [he, hrq] at h
      cases h
    show ((q, r') :: s.resolved).lookup p = some r
    rw [lookup_cons_of_ne r' s.resolved hne]
    exact h
  | authStart j force hj => exact h
  | readyStart j hj => exact h
  | authOwnWake j q r2 hj hr2 => exact h
  | authJoinWake j q r2 hj hr2 => exact h
  | readyAuthOwnWake j q r2 hj hr2 => exact h
  | readyAuthJoinWake j q r2 hj hr2 => exact h
  | readyJoinWake j hj hd => exact h

/-- A caller awaiting handshake `p` either still awaits it or has returned
exactly the outcome `p` settled with — preserved by every step. -/
theorem waiterFate_step {s t : Sys} (hst : Step s t) {p i : Nat}
    (hf : WaiterFate p i s) : WaiterFate p i t := by
  rcases hf with hw | ⟨r, hd, hl⟩
  · rw [waitingOn_iff] at hw
    cases hst with
    | authStart j force hj =>
      have hji : j ≠ i := by
        intro he
        rcases hw with hw | hw <;> rw [he, hw] at hj <;> simp at hj
      left
      rw [waitingOn_iff, tasks_get_applyEff_ne _ hji]
      exact hw
    | readyStart j hj =>
      have hji : j ≠ i := by
        intro he
        rcases hw with hw | hw <;> rw [he, hw] at hj <;> simp at hj
      left
      rw [waitingOn_iff, tasks_get_applyEff_ne _ hji]
      exact hw
    | resolve q r' hq hrq =>
      left
      rw [waitingOn_iff]
      exact hw
    | authOwnWake j q r2 hj hr2 =>
      by_cases hji : j = i
      · subst hji
        rcases hw with hw | hw
        · rw [hw] at hj
          have hpq : p = q := Pc.aWaitOwn.inj (Option.some.inj hj)
          right
          refine ⟨r2, ?_, ?_⟩
          · show (s.tasks.set j (Pc.aDone r2))[j]? = some (.aDone r2)
            exact List.getElem?_set_eq_of_lt _ (getElem?_length hw)
          · show s.resolved.lookup p = some r2
            rw [hpq]
            exact hr2
        · rw [hw] at hj
          simp at hj
      · left
        rw [waitingOn_iff, tasks_get_setTask_ne _ hji]
        exact hw
    | authJoinWake j q r2 hj hr2 =>
      by_cases hji : j = i
      · subst hji
        rcases hw with hw | hw
        · rw [hw] at hj
          simp at hj
        · rw [hw] at hj
          have hpq : p = q := Pc.aWaitJoin.inj (Option.some.inj hj)
          right
          refine ⟨r2, ?_, ?_⟩
          · show (s.tasks.set j (Pc.aDone r2))[j]? = some (.aDone r2)
            exact List.getElem?_set_eq_of_lt _ (getElem?_length hw)
          · show s.resolved.lookup p = some r2
            rw [hpq]
            exact hr2
      · left
        rw [waitingOn_iff, tasks_get_setTask_ne _ hji]
        exact hw
    | readyAuthOwnWake j q r2 hj hr2 =>
      have hji : j ≠ i := by
        intro he
        rcases hw with hw | hw <;> rw [he, hw] at hj <;> simp at hj
      left
      rw [waitingOn_iff, tasks_get_setTask_ne _ hji]
      exact hw
    | readyAuthJoinWake j q r2 hj hr2 =>
      have hji : j ≠ i := by
        intro he
        rcases hw with hw | hw <;> rw [he, hw] at hj <;> simp at hj
      left
      rw [waitingOn_iff, tasks_get_setTask_ne _ hji]
      exact hw
    | readyJoinWake j hj hd =>
      have hji : j ≠ i := by
        intro he
        rcases hw with hw | hw <;> rw [he, hw] at hj <;> simp at hj
      left
      rw [waitingOn_iff, tasks_get_setTask_ne _ hji]
      exact hw
  · right
    refine ⟨r, ?_, lookup_persist hst hl⟩
    cases hst with
    | authStart j force hj =>
      have hji : j ≠ i := by
        intro he
        rw [he, hd] at hj
        simp at hj
      rw [tasks_get_applyEff_ne _ hji]
      exact hd
    | readyStart j hj =>
      have hji : j ≠ i := by
        intro he
        rw [he, hd] at hj
        simp at hj
      rw [tasks_get_applyEff_ne _ hji]
      exact hd
    | resolve q r' hq hrq => exact hd
    | authOwnWake j q r2 hj hr2 =>
      have hji : j ≠ i := by
        intro he
        rw [he, hd] at hj
        simp at hj
      rw [tasks_get_setTask_ne _ hji]
      exact hd
    | authJoinWake j q r2 hj hr2 =>
      have hji : j ≠ i := by
        intro he
        rw [he, hd] at hj
        simp at hj
      rw [tasks_get_setTask_ne _ hji]
      exact hd
    | readyAuthOwnWake j q r2 hj hr2 =>
      have hji : j ≠ i := by
        intro he
        rw [he, hd] at hj
        simp at hj
      rw [tasks_get_setTask_ne _ hji]
      exact hd
    | readyAuthJoinWake j q r2 hj hr2 =>
      have hji : j ≠ i := by
        intro he
        rw [he, hd] at hj
        simp at hj
      rw [tasks_get_setTask_ne _ hji]
      exact hd
    | readyJoinWake j hj hd2 =>
      have hji : j ≠ i := by
        intro he
        rw [he, hd] at hj
        simp at hj
      rw [tasks_get_setTask_ne _ hji]
      exact hd

theorem waiterFate_reach {s t : Sys} (hreach : Reach s t) {p i : Nat}
    (hf : WaiterFate p i s) : WaiterFate p i t := by
  induction hreach with
  | refl => exact hf
  | tail _ hbc ih => exact waiterFate_step hbc ih

theorem readyInv_init (n : Nat) : ReadyInv n (readyInit n) := by
  refine ⟨rfl, rfl, fun _ => ⟨rfl, rfl, rfl⟩, ?_, ?_⟩
  · intro h
    simp [readyInit] at h
  · intro pc hmem
    exact Or.inl (List.eq_of_mem_replicate hmem)

theorem readyInv_step {n : Nat} {s t : Sys} (hR : ReadyInv n s) (hst : Step s t) :
    ReadyInv n t := by
  obtain ⟨hcred, hbucket, hfresh, hone, hpcs⟩ := hR
  cases hst with
  | authStart j force hj =>
    exfalso
    rcases hpcs _ (List.getElem?_mem hj) with h | h | h | h | h <;> cases h
  | authOwnWake j q r hj hr =>
    exfalso
    rcases hpcs _ (List.getElem?_mem hj) with h | h | h | h | h <;> cases h
  | authJoinWake j q r hj hr =>
    exfalso
    rcases hpcs _ (List.getElem?_mem hj) with h | h | h | h | h <;> cases h
  | resolve q r hq hr =>
    exact ⟨hcred, hbucket, hfresh, hone, hpcs⟩
  | readyStart j hj =>
    by_cases hinit : s.initSlot
    · have he : readyEntry s =
          { pc := .rWaitInit, slot := s.slot, started := s.started,
            initSlot := s.initSlot, initDone := s.initDone } := by
        simp [readyEntry, hinit]
      rw [he]
      refine ⟨hcred, hbucket, ?_, fun _ => hone hinit, ?_⟩
      · intro hf
        exact absurd hf (by simp [applyEff, hinit])
      · intro pc hmem
        rcases List.mem_or_eq_of_mem_set hmem with hm | hm
        · exact hpcs pc hm
        · rw [hm]
          exact Or.inr (Or.inl rfl)
    · have hf0 : s.initSlot = false := by
        revert hinit
        cases s.initSlot <;> simp
      obtain ⟨hst0, hslot0, htasks0⟩ := hfresh hf0
      have he : readyEntry s =
          { pc := .rAuthOwn s.started, slot := some s.started,
            started := s.started + 1, initSlot := true,
            initDone := s.initDone } := by
        simp [readyEntry, hinit, hcred, hbucket, hslot0]
      rw [he]
      refine ⟨hcred, hbucket, ?_, ?_, ?_⟩
      · intro hf
        exact absurd hf (by simp [applyEff])
      · intro _
        show s.started + 1 = 1
        rw [hst0]
      · intro pc hmem
        rcases List.mem_or_eq_of_mem_set hmem with hm | hm
        · exact hpcs pc hm
        · rw [hm, hst0]
          exact Or.inr (Or.inr (Or.inl rfl))
  | readyAuthOwnWake j q r hj hr =>
    refine ⟨hcred, hbucket, ?_, fun hi => hone hi, ?_⟩
    · intro hf
      exfalso
      obtain ⟨_, _, htasks0⟩ := hfresh hf
      rw [htasks0] at hj
      cases List.eq_of_mem_replicate (List.getElem?_mem hj)
    · intro pc hmem
      rcases List.mem_or_eq_of_mem_set hmem with hm | hm
      · exact hpcs pc hm
      · rw [hm]
        exact Or.inr (Or.inr (Or.inr (Or.inr rfl)))
  | readyAuthJoinWake j q r hj hr =>
    refine ⟨hcred, hbucket, ?_, fun hi => hone hi, ?_⟩
    · intro hf
      exfalso
      obtain ⟨_, _, htasks0⟩ := hfresh hf
      rw [htasks0] at hj
      cases List.eq_of_mem_replicate (List.getElem?_mem hj)
    · intro pc hmem
      rcases List.mem_or_eq_of_mem_set hmem with hm | hm
      · exact hpcs pc hm
      · rw [hm]
        exact Or.inr (Or.inr (Or.inr (Or.inr rfl)))
  | readyJoinWake j hj hd =>
    refine ⟨hcred, hbucket, ?_, fun hi => hone hi, ?_⟩
    · intro hf
      exfalso
      obtain ⟨_, _, htasks0⟩ := hfresh hf
      rw [htasks0] at hj
      cases List.eq_of_mem_replicate (List.getElem?_mem hj)
    · intro pc hmem
      rcases List.mem_or_eq_of_mem_set hmem with hm | hm
      · exact hpcs pc hm
      · rw [hm]
        exact Or.inr (Or.inr (Or.inr (Or.inr rfl)))

theorem readyInv_reach {n : Nat} {s : Sys} (hreach : Reach (readyInit n) s) :
    ReadyInv n s := by
  induction hreach with
  | refl => exact readyInv_init n
  | tail _ hbc ih => exact readyInv_step ih hbc

/-- C2: the single-flight guard of `ensureB2Authorized` / `ensureB2Ready`:
(1) in every state reachable from a fresh process, at most one authorize
handshake is outstanding; (2) callers awaiting the same in-flight handshake
all receive the same result — whenever two of them have returned, their
outcomes coincide; (3) once every caller has returned — whether the
handshake succeeded or failed — the single-slot guard is cleared; (4) with
the slot clear and no fresh session, an arriving caller's entry segment
starts a fresh handshake; and (5) N concurrent `ensureB2Ready` calls on a
configured fresh process trigger at most one authorize handshake under
every interleaving, and exactly one as soon as any caller has run. -/
theorem ensureB2Authorized_single_flight :
    (∀ s0 s : Sys, cleanInit s0 = true → Reach s0 s → unresolvedCount s ≤ 1) ∧
    (∀ (s t : Sys) (i j p : Nat) (ri rj : AuthOutcome), Reach s t →
      waitingOn s i p = true → waitingOn s j p = true →
      t.tasks[i]? = some (.aDone ri) → t.tasks[j]? = some (.aDone rj) →
      ri = rj) ∧
    (∀ s0 s : Sys, cleanInit s0 = true → Reach s0 s → allDone s = true →
      s.slot = none) ∧
    (∀ (s : Sys) (i : Nat) (force : Bool), s.tasks[i]? = some (.aStart force) →
      s.slot = none → s.cache = none → s.credsOk = true →
      (authEntry s force).started = s.started + 1 ∧
      Step s (applyEff s i (authEntry s force))) ∧
    (∀ (n : Nat) (s : Sys), Reach (readyInit n) s →
      s.started ≤ 1 ∧
      ((s.tasks.any fun pc => pc != .rStart) = true → s.started = 1)) := by
  refine ⟨?_, ?_, ?_, ?_, ?_⟩
  · intro s0 s hclean hreach
    exact inv_unresolvedCount (inv_reach hclean hreach)
  · intro s t i j p ri rj hreach hwi hwj hdi hdj
    have hfi := waiterFate_reach hreach (Or.inl hwi)
    have hfj := waiterFate_reach hreach (Or.inl hwj)
    rcases hfi with hw | ⟨r1, hd1, hl1⟩
    · rw [waitingOn_iff] at hw
      rcases hw with hw | hw <;> rw [hdi] at hw <;> simp at hw
    rcases hfj with hw | ⟨r2, hd2, hl2⟩
    · rw [waitingOn_iff] at hw
      rcases hw with hw | hw <;> rw [hdj] at hw <;> simp at hw
    rw [hdi] at hd1
    rw [hdj] at hd2
    have h1 : ri = r1 := Pc.aDone.inj (Option.some.inj hd1)
    have h2 : rj = r2 := Pc.aDone.inj (Option.some.inj hd2)
    rw [hl1] at hl2
    rw [h1, h2, Option.some.inj hl2]
  · intro s0 s hclean hreach hdone
    have hInv := inv_reach hclean hreach
    cases hslot : s.slot with
    | none => rfl
    | some p =>
      exfalso
      obtain ⟨i, hown⟩ := hInv.slotOwner p hslot
      have hdone2 : s.tasks.all (fun pc =>
          match pc with
          | .aDone _ => true
          | .rDone => true
          | _ => false) = true := hdone
      rcases hown with hw | hw <;>
        · have hall := List.all_eq_true.mp hdone2 _ (List.getElem?_mem hw)
          simp at hall
  · intro s i force h hslot hcache hcred
    constructor
    · show (authEntry s force).started = s.started + 1
      cases force <;> simp [authEntry, hcred, hcache, hslot]
    · exact Step.authStart s i force h
  · intro n s hreach
    obtain ⟨hcred, hbucket, hfresh, hone, hpcs⟩ := readyInv_reach hreach
    constructor
    · cases hi : s.initSlot with
      | false =>
        rw [(hfresh hi).1]
        omega
      | true =>
        rw [hone hi]
    · intro hany
      cases hi : s.initSlot with
      | true => exact hone hi
      | false =>
        exfalso
        obtain ⟨_, _, htasks⟩ := hfresh hi
        rw [htasks] at hany
        rw [List.any_eq_true] at hany
        obtain ⟨pc, hmem, hpc⟩ := hany
        rw [List.eq_of_mem_replicate hmem] at hpc
        simp at hpc

theorem ensureB2Authorized_single_flight_witness :
    unresolvedCount cxS2 ≤ 1 ∧
    (AuthOutcome.succ 5 : AuthOutcome) = .succ 5 ∧
    cxS5.slot = none ∧
    (authEntry authInit2 false).started = authInit2.started + 1 ∧
    cxR1.started = 1 := by
  have step01 : Step authInit2 cxS1 := Step.authStart authInit2 0 false (by decide)
  have step12 : Step cxS1 cxS2 := Step.authStart cxS1 1 false (by decide)
  have step23 : Step cxS2 cxS3 :=
    Step.resolve cxS2 0 (.succ 5) (by decide) (by decide)
  have step34 : Step cxS3 cxS4 :=
    Step.authOwnWake cxS3 0 0 (.succ 5) (by decide) (by decide)
  have step45 : Step cxS4 cxS5 :=
    Step.authJoinWake cxS4 1 0 (.succ 5) (by decide) (by decide)
  have reach02 : Reach authInit2 cxS2 :=
    Relation.ReflTransGen.head step01
      (Relation.ReflTransGen.head step12 Relation.ReflTransGen.refl)
  have reach25 : Reach cxS2 cxS5 :=
    Relation.ReflTransGen.head step23
      (Relation.ReflTransGen.head step34
        (Relation.ReflTransGen.head step45 Relation.ReflTransGen.refl))
  have reach05 : Reach authInit2 cxS5 := Relation.ReflTransGen.trans reach02 reach25
  have reachR : Reach (readyInit 2) cxR1 :=
    Relation.ReflTransGen.head (Step.readyStart (readyInit 2) 0 (by decide))
      Relation.ReflTransGen.refl
  refine ⟨?_, ?_, ?_, ?_, ?_⟩
  · exact ensureB2Authorized_single_flight.1 authInit2 cxS2 (by decide) reach02
  · exact ensureB2Authorized_single_flight.2.1 cxS2 cxS5 0 1 0 (.succ 5) (.succ 5)
      reach25 (by decide) (by decide) (by decide) (by decide)
  · exact ensureB2Authorized_single_flight.2.2.1 authInit2 cxS5 (by decide)
      reach05 (by decide)
  · exact (ensureB2Authorized_single_flight.2.2.2.1 authInit2 0 false
      (by decide) rfl rfl rfl).1
  · exact (ensureB2Authorized_single_flight.2.2.2.2 2 cxR1 reachR).2 (by decide)

end QRServer
